import Mathlib

/-!
# Verification of rssant's cursor / unionid codec subsystem

Shallow embedding of `src/rssant_common/validator.py` and
`src/feedlib/helper.py`, together with spec-modelled definitions of the
`Cursor` and `unionid` modules (their source files are not part of the
given tree; only their callers in `validator.py` are).

Python strings are modelled as lists of Unicode code points (`PyStr`),
Python `bytes` as lists of naturals below 256.
-/

set_option maxHeartbeats 1000000

set_option maxRecDepth 8000

namespace Rssant

/-- A Python `str`: a sequence of Unicode code points. -/
abbrev PyStr := List Nat

/-- Turn a Lean string literal into the corresponding `PyStr`. -/
def pstr (s : String) : PyStr := s.data.map Char.toNat

/-- A Unicode scalar value: encodable to UTF-8 (not a surrogate, below
`0x110000`). -/
def ScalarCp (n : Nat) : Prop := n < 0xD800 ∨ (0xE000 ≤ n ∧ n < 0x110000)

instance (n : Nat) : Decidable (ScalarCp n) := by
  unfold ScalarCp; infer_instance

/-! ## `coerce_url` (src/feedlib/helper.py) -/

/-- The characters removed by Python `str.strip()` with no argument
(ASCII whitespace; the less common Unicode whitespace code points do not
occur in the inputs of interest). -/
def pyIsSpace (c : Nat) : Bool :=
  c == 32 || c == 9 || c == 10 || c == 13 || c == 11 || c == 12

/-- Python `str.strip()`: remove leading and trailing whitespace
(`List.rdropWhile p l` is `(l.reverse.dropWhile p).reverse`). -/
def pyStrip (s : PyStr) : PyStr :=
  List.rdropWhile pyIsSpace (List.dropWhile pyIsSpace s)

/-- Python `str.startswith(prefixStr)`. -/
def pyStartsWith (p : PyStr) (s : PyStr) : Bool :=
  match p, s with
  | [], _ => true
  | _ :: _, [] => false
  | a :: p, b :: s => a == b && pyStartsWith p s

/-- Python `sub in s` for strings: substring containment. -/
def pyHasSub (pat : PyStr) (s : PyStr) : Bool :=
  match s with
  | [] => pat.isEmpty
  | _ :: cs => pyStartsWith pat s || pyHasSub pat cs

/-- `coerce_url` from src/feedlib/helper.py: strip the url, rewrite a
`feed://` prefix to `http://`, and prepend `http://` when no `://`
occurs. -/
def coerce_url (url : PyStr) : PyStr :=
  let url := pyStrip url
  if pyStartsWith (pstr "feed://") url then pstr "http://" ++ url.drop 7
  else if ¬ pyHasSub (pstr "://") url then pstr "http://" ++ url
  else url

/-! ### Lemmas about `coerce_url` -/

lemma pstr_feed : pstr "feed://" = [102, 101, 101, 100, 58, 47, 47] := by decide

lemma pstr_http : pstr "http://" = [104, 116, 116, 112, 58, 47, 47] := by decide

lemma pstr_sep : pstr "://" = [58, 47, 47] := by decide

lemma pyHasSub_http (rest : PyStr) :
    pyHasSub [58, 47, 47] ([104, 116, 116, 112, 58, 47, 47] ++ rest) = true := by
  simp [pyHasSub, pyStartsWith]

lemma pyStartsWith_feed_http (rest : PyStr) :
    pyStartsWith [102, 101, 101, 100, 58, 47, 47] ([104, 116, 116, 112, 58, 47, 47] ++ rest)
      = false := by
  simp [pyStartsWith]

lemma getLast_drop_eq (l : List Nat) (n : Nat) (h : l.drop n ≠ []) (h2 : l ≠ []) :
    (l.drop n).getLast h = l.getLast h2 := by
  have hlt : n < l.length := by
    by_contra hn
    exact h (List.drop_eq_nil_of_le (by omega))
  have hdl : 0 < (l.drop n).length := List.length_pos.mpr h
  rw [List.getLast_eq_getElem, List.getLast_eq_getElem, List.getElem_drop]
  congr 1
  simp only [List.length_drop] at hdl ⊢
  omega

lemma pyStrip_getLast_not_space (u : PyStr) (h : pyStrip u ≠ []) :
    pyIsSpace ((pyStrip u).getLast h) = false := by
  have := List.rdropWhile_last_not pyIsSpace (List.dropWhile pyIsSpace u) h
  simpa [pyStrip] using this

lemma pyStrip_http_append (rest : PyStr)
    (hlast : ∀ h : rest ≠ [], pyIsSpace (rest.getLast h) = false) :
    pyStrip ([104, 116, 116, 112, 58, 47, 47] ++ rest)
      = [104, 116, 116, 112, 58, 47, 47] ++ rest := by
  have hd : List.dropWhile pyIsSpace ([104, 116, 116, 112, 58, 47, 47] ++ rest)
      = [104, 116, 116, 112, 58, 47, 47] ++ rest := by
    rw [show ([104, 116, 116, 112, 58, 47, 47] ++ rest : PyStr)
          = 104 :: ([116, 116, 112, 58, 47, 47] ++ rest) from rfl]
    rw [List.dropWhile_cons, if_neg (by decide)]
  unfold pyStrip
  rw [hd]
  apply List.rdropWhile_eq_self_iff.mpr
  intro hl
  cases rest with
  | nil =>
      simp only [List.append_nil] at hl ⊢
      rw [show ([104, 116, 116, 112, 58, 47, 47] : PyStr).getLast hl = 47 from rfl]
      decide
  | cons x xs =>
      rw [List.getLast_append' _ _ (List.cons_ne_nil x xs)]
      simpa using hlast (List.cons_ne_nil x xs)

lemma pyStrip_idem (u : PyStr) : pyStrip (pyStrip u) = pyStrip u := by
  unfold pyStrip
  have hd : List.dropWhile pyIsSpace
      (List.rdropWhile pyIsSpace (List.dropWhile pyIsSpace u))
      = List.rdropWhile pyIsSpace (List.dropWhile pyIsSpace u) := by
    apply List.dropWhile_eq_self_iff.mpr
    intro hl
    have hpre := List.rdropWhile_prefix pyIsSpace (List.dropWhile pyIsSpace u)
    have hlen : 0 < (List.dropWhile pyIsSpace u).length :=
      lt_of_lt_of_le hl hpre.length_le
    have := List.dropWhile_get_zero_not pyIsSpace u hlen
    simpa [List.get_eq_getElem, hpre.getElem hl] using this
  rw [hd, List.rdropWhile_idempotent]

/-- `coerce_url` output is a fixed point: applying `coerce_url` to a string of
the form `http:// ++ rest` (with no trailing whitespace in `rest`) returns it
unchanged. -/
lemma coerce_url_http_fixed (rest : PyStr)
    (hlast : ∀ h : rest ≠ [], pyIsSpace (rest.getLast h) = false) :
    coerce_url ([104, 116, 116, 112, 58, 47, 47] ++ rest)
      = [104, 116, 116, 112, 58, 47, 47] ++ rest := by
  unfold coerce_url
  rw [pstr_feed, pstr_http, pstr_sep, pyStrip_http_append rest hlast]
  rw [if_neg (by simp [pyStartsWith])]
  rw [if_neg (by simp [pyHasSub, pyStartsWith])]

end Rssant

namespace Rssant

/-- C10: `coerce_url` is idempotent — for every input string `u`,
`coerce_url (coerce_url u) = coerce_url u` — and every returned string
contains the scheme separator `"://"` (a `feed://` prefix is rewritten to
`http://`, and an input without `"://"` has `http://` prepended). -/
theorem c10_coerce_url_idempotent_and_schemed (u : PyStr) :
    coerce_url (coerce_url u) = coerce_url u ∧
      pyHasSub (pstr "://") (coerce_url u) = true := by
  by_cases h1 : pyStartsWith (pstr "feed://") (pyStrip u) = true
  · have hr : coerce_url u = [104, 116, 116, 112, 58, 47, 47] ++ (pyStrip u).drop 7 := by
      unfold coerce_url
      rw [if_pos h1, pstr_http]
    have hlast : ∀ h : (pyStrip u).drop 7 ≠ [],
        pyIsSpace (((pyStrip u).drop 7).getLast h) = false := by
      intro h
      have hne : pyStrip u ≠ [] := by
        intro he
        exact h (by simp [he])
      rw [getLast_drop_eq _ _ h hne]
      exact pyStrip_getLast_not_space u hne
    refine ⟨?_, ?_⟩
    · rw [hr]
      exact coerce_url_http_fixed _ hlast
    · rw [hr, pstr_sep]
      exact pyHasSub_http _
  · by_cases h2 : pyHasSub (pstr "://") (pyStrip u) = true
    · have hr : coerce_url u = pyStrip u := by
        unfold coerce_url
        rw [if_neg h1, if_neg (not_not_intro h2)]
      refine ⟨?_, ?_⟩
      · rw [hr]
        unfold coerce_url
        rw [pyStrip_idem u, if_neg h1, if_neg (not_not_intro h2)]
      · rw [hr]
        exact h2
    · have hr : coerce_url u = [104, 116, 116, 112, 58, 47, 47] ++ pyStrip u := by
        unfold coerce_url
        rw [if_neg h1, if_pos h2, pstr_http]
      refine ⟨?_, ?_⟩
      · rw [hr]
        exact coerce_url_http_fixed _ (fun h => pyStrip_getLast_not_space u h)
      · rw [hr, pstr_sep]
        exact pyHasSub_http _

end Rssant

namespace Rssant

/-! ## Python exceptions and the validator boundary -/

/-- The Python exceptions that can arise inside the validators.
`binasciiError`, `cursorParseError`, `duplicateKeyError` and
`missingKeyError` are (modelled as) `ValueError` subclasses;
`rangeError` and `invalidTokenError` are `UnionIdError` subclasses. -/
inductive PyExn where
  | unicodeEncodeError
  | unicodeDecodeError
  | binasciiError
  | cursorParseError
  | duplicateKeyError (k : PyStr)
  | missingKeyError (ks : List PyStr)
  | rangeError
  | invalidTokenError
  | typeError
  | attributeError
  | validationError
  | schemaError
deriving DecidableEq

/-- Outcome of running a compiled validate function: either the framework's
uniform `Invalid` failure (carrying the original exception as its message),
or an exception escaping the validate function uncaught. -/
inductive VErr where
  | invalid (ex : PyExn)
  | uncaught (ex : PyExn)
deriving DecidableEq

instance {ε α : Type} [DecidableEq ε] [DecidableEq α] : DecidableEq (Except ε α) :=
  fun a b =>
    match a, b with
    | .error x, .error y => decidable_of_iff (x = y) (by simp)
    | .ok x, .ok y => decidable_of_iff (x = y) (by simp)
    | .error _, .ok _ => isFalse (fun hh => Except.noConfusion hh)
    | .ok _, .error _ => isFalse (fun hh => Except.noConfusion hh)

/-! ## `dict_validator` (src/rssant_common/validator.py) -/

/-- A Python value as far as the dict validator observes it. -/
inductive PyVal where
  | pnone
  | vstr (s : PyStr)
  | vint (n : Int)
deriving DecidableEq

/-- A Python dict in insertion order. -/
abbrev PyDict := List (PyStr × PyVal)

/-- The filter condition of the dict comprehension
`{k: v for k, v in value.items() if v is not None and v != ''}`. -/
def dictKeepVal (v : PyVal) : Bool :=
  !(v == PyVal.pnone) && !(v == PyVal.vstr [])

/-- The validate function built by `dict_validator`: run the builtin dict
validator (`origin`, an abstract parameter since validr's builtin is external
code), then, when the result is truthy and `remove_empty` was set, drop
entries whose value is `None` or `''`. `remove_empty` is the schema
parameter popped from the copied schema before delegating. -/
def dict_validator_validate {ε : Type} (origin : PyVal → Except ε PyDict)
    (remove_empty : Bool) (value : PyVal) : Except ε PyDict :=
  match origin value with
  | .error e => .error e
  | .ok d =>
      if !d.isEmpty && remove_empty then
        .ok (d.filter fun kv => dictKeepVal kv.2)
      else
        .ok d

/-- C9: for every input accepted by the underlying built-in dict validator,
with `remove_empty` set the returned dict has no entry whose value is `None`
or `''` and keeps every other entry of the base result; with `remove_empty`
unset the base result is returned unchanged. -/
theorem c9_dict_validator_remove_empty {ε : Type} (origin : PyVal → Except ε PyDict)
    (value : PyVal) (d : PyDict) (h : origin value = .ok d) :
    dict_validator_validate origin false value = .ok d ∧
    dict_validator_validate origin true value
      = .ok (d.filter fun kv => dictKeepVal kv.2) ∧
    (∀ kv ∈ d.filter (fun kv => dictKeepVal kv.2),
      kv.2 ≠ PyVal.pnone ∧ kv.2 ≠ PyVal.vstr []) ∧
    (∀ kv ∈ d, dictKeepVal kv.2 = true →
      kv ∈ d.filter fun kv => dictKeepVal kv.2) := by
  refine ⟨?_, ?_, ?_, ?_⟩
  · simp [dict_validator_validate, h]
  · unfold dict_validator_validate
    rw [h]
    cases d with
    | nil => simp
    | cons kv tl => simp
  · intro kv hkv
    have := (List.mem_filter.mp hkv).2
    simp only [dictKeepVal, Bool.and_eq_true, Bool.not_eq_true', beq_eq_false_iff_ne,
      ne_eq] at this
    exact this
  · intro kv hkv hgood
    exact List.mem_filter.mpr ⟨hkv, hgood⟩

/-- Witness for C9 at a concrete base-validator result. -/
theorem c9_witness :
    dict_validator_validate (fun _ => .ok (ε := Unit)
        [([97], PyVal.pnone), ([98], PyVal.vint 1), ([99], PyVal.vstr [])])
      false PyVal.pnone
      = .ok [([97], PyVal.pnone), ([98], PyVal.vint 1), ([99], PyVal.vstr [])] ∧
    dict_validator_validate (fun _ => .ok (ε := Unit)
        [([97], PyVal.pnone), ([98], PyVal.vint 1), ([99], PyVal.vstr [])])
      true PyVal.pnone
      = .ok ([([97], PyVal.pnone), ([98], PyVal.vint 1), ([99], PyVal.vstr [])].filter
          fun kv => dictKeepVal kv.2) :=
  ⟨(c9_dict_validator_remove_empty _ PyVal.pnone _ rfl).1,
   (c9_dict_validator_remove_empty _ PyVal.pnone _ rfl).2.1⟩

/-! ## `url_validator` (src/rssant_common/validator.py) -/

/-- `schemes.replace(',', ' ').split(' ')` from `url_validator`: the scheme
set accepted by the django URL validator. -/
def splitChar (sep : Nat) : PyStr → List PyStr
  | [] => [[]]
  | c :: cs =>
      let r := splitChar sep cs
      if c = sep then [] :: r
      else
        match r with
        | [] => [[c]]
        | h :: t => (c :: h) :: t

/-- The scheme set of `url_validator`. -/
def schemesOf (schemes : PyStr) : List PyStr :=
  splitChar 32 (schemes.map fun c => if c = 44 then 32 else c)

/-- The validate function of `url_validator`.  `djangoValidate` abstracts the
external `django.core.validators.URLValidator(schemes=...)` callable (`false`
means it raises `ValidationError`, which the adapter catches and re-raises as
`Invalid`).  `ds = some d` models a truthy `default_schema`: in that case the
code runs `value = coerce_url(value, default_schema=default_schema)` before
the `try` block, but `coerce_url` (src/feedlib/helper.py) is declared as
`def coerce_url(url)` with a single parameter, so binding the keyword
argument `default_schema` raises `TypeError`, which nothing catches. -/
def urlValidate (djangoValidate : PyStr → Bool) (ds : Option PyStr)
    (value : PyStr) : Except VErr PyStr :=
  match ds with
  | some _ => .error (.uncaught .typeError)
  | none =>
      if djangoValidate value then .ok value else .error (.invalid .validationError)

/-- `url_validator` compilation: `if default_schema and default_schema not in
schemes: raise SchemaError(...)`; otherwise return the validate closure. A
falsy (empty) `default_schema` behaves like `None`. -/
def url_validator (djangoValidate : PyStr → Bool) (schemes : PyStr)
    (default_schema : Option PyStr) : Except PyExn (PyStr → Except VErr PyStr) :=
  match default_schema with
  | some d =>
      if d.isEmpty then .ok (urlValidate djangoValidate none)
      else if d ∈ schemesOf schemes then .ok (urlValidate djangoValidate (some d))
      else .error .schemaError
  | none => .ok (urlValidate djangoValidate none)

/-- C8: whenever `url_validator` is constructed with a truthy
`default_schema` that is a member of `schemes` (so construction succeeds),
the resulting validate function raises an uncaught `TypeError` for every
input string, because it calls `coerce_url(value, default_schema=...)` while
`coerce_url` accepts only a single `url` argument; the `TypeError` is not
converted into the framework's `Invalid` failure. -/
theorem c8_url_validator_default_schema_type_error
    (djangoValidate : PyStr → Bool) (schemes d v : PyStr)
    (hne : d ≠ []) (hmem : d ∈ schemesOf schemes) :
    url_validator djangoValidate schemes (some d)
      = .ok (urlValidate djangoValidate (some d)) ∧
    urlValidate djangoValidate (some d) v = .error (.uncaught .typeError) := by
  constructor
  · show (if d.isEmpty = true then _ else if d ∈ schemesOf schemes then _ else _)
      = Except.ok (urlValidate djangoValidate (some d))
    rw [if_neg (by simpa using hne), if_pos hmem]
  · rfl

/-- Witness for C8: `url_validator(schemes='http https',
default_schema='http')` compiles, and its validate function raises
`TypeError` on the input `"example.com"`. -/
theorem c8_witness :
    url_validator (fun _ => true) (pstr "http https") (some (pstr "http"))
      = .ok (urlValidate (fun _ => true) (some (pstr "http"))) ∧
    urlValidate (fun _ => true) (some (pstr "http")) (pstr "example.com")
      = .error (.uncaught .typeError) :=
  c8_url_validator_default_schema_type_error (fun _ => true) (pstr "http https")
    (pstr "http") (pstr "example.com") (by decide) (by decide)

end Rssant

namespace Rssant

/-! ## UnionId codec

Modelled from the spec: the repository's `rssant_common/unionid.py` module is
not in the given source tree; only its caller `create_unionid_validator` in
`src/rssant_common/validator.py` is.  The spec (§4.2, §9) fixes the contract
— per-component range check failing `RangeError`, deterministic packing into
a URL-safe token alphabet, decode failing `InvalidTokenError` on foreign
characters or structurally invalid fields — but explicitly leaves the
numeric bound and the packing/alphabet as open implementation choices
("e.g. 53-bit or 63-bit non-negative integers", "base62 or base64url").  We
fix the bound `2^63 - 1`, the base-62 alphabet `0-9A-Za-z`, and `-` as the
field separator, all members of the spec's URL-safe token alphabet. -/

/-- Modelled from the spec: the documented maximum component magnitude
(63-bit non-negative integers). -/
def MAX_COMPONENT : Nat := 2 ^ 63 - 1

/-- Base-62 digit to its token character (`0-9A-Za-z`). -/
def b62Char (d : Nat) : Nat :=
  if d < 10 then 48 + d
  else if d < 36 then 55 + d
  else 61 + d

/-- Token character back to its base-62 digit; `none` for a character
outside the alphabet. -/
def b62Val (c : Nat) : Option Nat :=
  if 48 ≤ c ∧ c ≤ 57 then some (c - 48)
  else if 65 ≤ c ∧ c ≤ 90 then some (c - 55)
  else if 97 ≤ c ∧ c ≤ 122 then some (c - 61)
  else none

/-- Little-endian base-62 digits, with an explicit fuel argument so the
function is structurally recursive (and hence kernel-computable). -/
def natDigits62Aux : Nat → Nat → List Nat
  | _, 0 => []
  | 0, _ + 1 => []
  | fuel + 1, n + 1 => ((n + 1) % 62) :: natDigits62Aux fuel ((n + 1) / 62)

/-- Little-endian base-62 digits of `n` (empty for `0`). -/
def natDigits62 (n : Nat) : List Nat := natDigits62Aux n n

lemma natDigits62Aux_fuel : ∀ n f1 f2 : Nat, n ≤ f1 → n ≤ f2 →
    natDigits62Aux f1 n = natDigits62Aux f2 n := by
  intro n
  induction n using Nat.strong_induction_on with
  | _ n ih =>
    intro f1 f2 h1 h2
    match n, f1, f2 with
    | 0, f1, f2 => simp only [natDigits62Aux]
    | m + 1, f1 + 1, f2 + 1 =>
        simp only [natDigits62Aux]
        congr 1
        exact ih ((m + 1) / 62) (by omega) f1 f2 (by omega) (by omega)

/-- The recurrence satisfied by `natDigits62`. -/
lemma natDigits62_eq (n : Nat) :
    natDigits62 n = if n = 0 then [] else (n % 62) :: natDigits62 (n / 62) := by
  cases n with
  | zero => rfl
  | succ m =>
      rw [if_neg (Nat.succ_ne_zero m)]
      show natDigits62Aux (m + 1) (m + 1)
        = (m + 1) % 62 :: natDigits62Aux ((m + 1) / 62) ((m + 1) / 62)
      simp only [natDigits62Aux]
      congr 1
      exact natDigits62Aux_fuel ((m + 1) / 62) m ((m + 1) / 62) (by omega) (le_refl _)

/-- Big-endian base-62 rendering of one component (`"0"` for `0`). -/
def natToB62 (n : Nat) : PyStr :=
  if n = 0 then [48] else (natDigits62 n).reverse.map b62Char

/-- Value of a little-endian digit list. -/
def ofB62LE (l : List Nat) : Nat := l.foldr (fun d acc => d + 62 * acc) 0

/-- Map every character of a field through `b62Val`; `none` if any is
foreign. -/
def traverseB62 : PyStr → Option (List Nat)
  | [] => some []
  | c :: cs =>
      match b62Val c, traverseB62 cs with
      | some v, some vs => some (v :: vs)
      | _, _ => none

/-- Join parts with a separator (Python `sep.join(parts)`). -/
def joinSep (sep : PyStr) : List PyStr → PyStr
  | [] => []
  | [p] => p
  | p :: ps => p ++ sep ++ joinSep sep ps

/-- Modelled from the spec: `unionid.encode(*numbers)` — validate every
component is within `[0, MAX_COMPONENT]` (out of range fails `RangeError`, a
`UnionIdError`), then render the components in base 62 joined by `-`.
Deterministic and salt-free. -/
def unionidEncode (comps : List Int) : Except PyExn PyStr :=
  if comps.all (fun x => decide (0 ≤ x ∧ x ≤ (MAX_COMPONENT : Int))) then
    .ok (joinSep [45] (comps.map fun x => natToB62 x.toNat))
  else .error .rangeError

/-- Decode the separated fields of a token: an empty field or a character
outside the alphabet fails `InvalidTokenError` (a `UnionIdError`). -/
def decodeParts : List PyStr → Except PyExn (List Int)
  | [] => .ok []
  | p :: ps =>
      if p.isEmpty then .error .invalidTokenError
      else
        match traverseB62 p with
        | none => .error .invalidTokenError
        | some vs =>
            match decodeParts ps with
            | .error e => .error e
            | .ok xs => .ok (Int.ofNat (vs.foldl (fun a d => a * 62 + d) 0) :: xs)

/-- Modelled from the spec: `unionid.decode(text)` — reverse the alphabet
mapping and unpack the fields.  The adapter calls it as
`unionid.decode(value)` with the token as its only argument, so the expected
arity is not available to `decode` itself. -/
def unionidDecode (s : PyStr) : Except PyExn (List Int) :=
  decodeParts (splitChar 45 s)

/-! ### UnionId round-trip lemmas -/

lemma natDigits62_lt_base (n : Nat) : ∀ d ∈ natDigits62 n, d < 62 := by
  induction n using Nat.strong_induction_on with
  | _ n ih =>
    rw [natDigits62_eq]
    by_cases h : n = 0
    · simp [h]
    · rw [if_neg h]
      intro d hd
      rcases List.mem_cons.mp hd with h1 | h2
      · omega
      · exact ih (n / 62) (Nat.div_lt_self (Nat.pos_of_ne_zero h) (by omega)) d h2

lemma ofB62LE_natDigits62 (n : Nat) : ofB62LE (natDigits62 n) = n := by
  induction n using Nat.strong_induction_on with
  | _ n ih =>
    rw [natDigits62_eq]
    by_cases h : n = 0
    · simp [h, ofB62LE]
    · rw [if_neg h]
      have ihd := ih (n / 62) (Nat.div_lt_self (Nat.pos_of_ne_zero h) (by omega))
      simp only [ofB62LE, List.foldr_cons] at ihd ⊢
      omega

lemma natDigits62_ne_nil (n : Nat) (h : n ≠ 0) : natDigits62 n ≠ [] := by
  rw [natDigits62_eq, if_neg h]
  simp

lemma b62Val_b62Char : ∀ d : Nat, d < 62 → b62Val (b62Char d) = some d := by decide

lemma b62Char_ne_sep : ∀ d : Nat, d < 62 → b62Char d ≠ 45 := by decide

lemma traverseB62_map : ∀ ds : List Nat, (∀ d ∈ ds, d < 62) →
    traverseB62 (ds.map b62Char) = some ds := by
  intro ds
  induction ds with
  | nil => intro _; rfl
  | cons d tl ih =>
      intro h
      simp only [List.map_cons, traverseB62]
      rw [b62Val_b62Char d (h d (by simp)), ih (fun x hx => h x (by simp [hx]))]

lemma foldl_reverse_ofB62 (l : List Nat) :
    l.reverse.foldl (fun a d => a * 62 + d) 0 = ofB62LE l := by
  rw [List.foldl_reverse]
  induction l with
  | nil => rfl
  | cons d tl ih =>
      simp only [List.foldr_cons, ofB62LE] at ih ⊢
      omega

lemma natToB62_ne_nil (n : Nat) : natToB62 n ≠ [] := by
  unfold natToB62
  by_cases h : n = 0
  · simp [h]
  · rw [if_neg h]
    simp [natDigits62_ne_nil n h]

lemma natToB62_no_sep (n : Nat) : 45 ∉ natToB62 n := by
  unfold natToB62
  by_cases h : n = 0
  · simp [h]
  · rw [if_neg h]
    intro hmem
    obtain ⟨d, hd, hc⟩ := List.mem_map.mp hmem
    exact b62Char_ne_sep d (natDigits62_lt_base n d (List.mem_reverse.mp hd)) hc

lemma decodeParts_cons_ok (n : Nat) (ps : List PyStr) (xs : List Int)
    (h : decodeParts ps = .ok xs) :
    decodeParts (natToB62 n :: ps) = .ok (Int.ofNat n :: xs) := by
  by_cases h0 : n = 0
  · subst h0
    show decodeParts ([48] :: ps) = _
    simp only [decodeParts, traverseB62, b62Val]
    norm_num
    rw [h]
  · have hmap : natToB62 n = (natDigits62 n).reverse.map b62Char := by
      unfold natToB62
      rw [if_neg h0]
    have hvs : traverseB62 (natToB62 n) = some (natDigits62 n).reverse := by
      rw [hmap]
      exact traverseB62_map _ (fun d hd => natDigits62_lt_base n d (List.mem_reverse.mp hd))
    have hfold : ((natDigits62 n).reverse).foldl (fun a d => a * 62 + d) 0 = n := by
      rw [foldl_reverse_ofB62, ofB62LE_natDigits62]
    simp only [decodeParts]
    rw [if_neg (by simp [List.isEmpty_iff, natToB62_ne_nil n]), hvs, h]
    dsimp only
    rw [hfold]

lemma decodeParts_map (t : List Int) (h0 : ∀ x ∈ t, 0 ≤ x) :
    decodeParts (t.map fun x => natToB62 x.toNat) = .ok t := by
  induction t with
  | nil => rfl
  | cons x tl ih =>
      simp only [List.map_cons]
      rw [decodeParts_cons_ok x.toNat _ tl (ih (fun y hy => h0 y (by simp [hy])))]
      have hx : Int.ofNat x.toNat = x := by
        rw [Int.ofNat_eq_natCast]
        exact Int.toNat_of_nonneg (h0 x (by simp))
      rw [hx]

/-! ### split / join inverse lemmas (shared by unionid and cursor) -/

lemma splitChar_no_sep (sep : Nat) (p : PyStr) (h : sep ∉ p) :
    splitChar sep p = [p] := by
  induction p with
  | nil => rfl
  | cons c cs ih =>
      simp only [splitChar]
      rw [ih (fun hm => h (by simp [hm]))]
      rw [if_neg (by intro hc; exact h (by simp [hc.symm]))]

lemma splitChar_append_sep (sep : Nat) (p rest : PyStr) (h : sep ∉ p) :
    splitChar sep (p ++ sep :: rest) = p :: splitChar sep rest := by
  induction p with
  | nil => simp [splitChar]
  | cons c cs ih =>
      simp only [List.cons_append, splitChar, List.append_eq]
      rw [ih (fun hm => h (by simp [hm]))]
      rw [if_neg (by intro hc; exact h (by simp [hc.symm]))]

lemma splitChar_joinSep (sep : Nat) :
    ∀ parts : List PyStr, parts ≠ [] → (∀ p ∈ parts, sep ∉ p) →
      splitChar sep (joinSep [sep] parts) = parts := by
  intro parts
  induction parts with
  | nil => intro h; exact absurd rfl h
  | cons p ps ih =>
      intro _ hsep
      cases ps with
      | nil =>
          show splitChar sep (joinSep [sep] [p]) = [p]
          exact splitChar_no_sep sep p (hsep p (by simp))
      | cons q qs =>
          show splitChar sep (p ++ [sep] ++ joinSep [sep] (q :: qs)) = _
          rw [List.append_assoc, List.singleton_append]
          rw [splitChar_append_sep sep p _ (hsep p (by simp))]
          rw [ih (by simp) (fun r hr => hsep r (by simp [hr]))]

lemma unionid_roundtrip_core (t : List Int) (h0 : ∀ x ∈ t, 0 ≤ x) (hne : t ≠ []) :
    unionidDecode (joinSep [45] (t.map fun x => natToB62 x.toNat)) = .ok t := by
  unfold unionidDecode
  rw [splitChar_joinSep 45 _ (by simpa using hne) ?_]
  · exact decodeParts_map t h0
  · intro p hp
    obtain ⟨x, _, hx⟩ := List.mem_map.mp hp
    rw [← hx]
    exact natToB62_no_sep x.toNat

/-! ## The unionid validator (src/rssant_common/validator.py) -/

/-- Python `ValueError` family membership among the modelled exceptions
(`UnicodeEncodeError`/`UnicodeDecodeError` and `binascii.Error` are
`ValueError` subclasses in CPython; the modelled cursor errors are
`ValueError` subclasses as well). -/
def isValueError : PyExn → Bool
  | .unicodeEncodeError => true
  | .unicodeDecodeError => true
  | .binasciiError => true
  | .cursorParseError => true
  | .duplicateKeyError _ => true
  | .missingKeyError _ => true
  | _ => false

/-- Membership of the `except (unionid.UnionIdError, TypeError, ValueError)`
clause of `create_unionid_validator`'s validate function. -/
def unionidCaught (ex : PyExn) : Bool :=
  match ex with
  | .rangeError => true
  | .invalidTokenError => true
  | .typeError => true
  | _ => isValueError ex

/-- Input to a unionid validate function (`accept=(str, object)`): a string
token, a tuple of integers, or a value of any other type. -/
inductive UVal where
  | ustr (s : PyStr)
  | utup (t : List Int)
  | uother
deriving DecidableEq

/-- Output of a unionid validate function: the named tuple built by
`tuple_class(*value)`, or the re-encoded token from
`unionid.encode(*value)`. -/
inductive UOut where
  | otup (t : List Int)
  | ostr (s : PyStr)
deriving DecidableEq

/-- The tail of the `try` block: `if output_object: return
tuple_class(*value) else: return unionid.encode(*value)`.  `tuple_class(*t)`
raises `TypeError` when the component count differs from the namedtuple's
arity; `unionid.encode(*t)` re-encodes whatever components are present and
performs no arity check. -/
def unionidFinish (arity : Nat) (output_object : Bool) (t : List Int) :
    Except PyExn UOut :=
  if output_object then
    if t.length = arity then .ok (.otup t) else .error .typeError
  else
    match unionidEncode t with
    | .error e => .error e
    | .ok s => .ok (.ostr s)

/-- The head of the `try` block: `if isinstance(value, str): value =
unionid.decode(value)`.  Star-unpacking a non-iterable, non-string value in
the branches that follow raises `TypeError` (inside the `try` block). -/
def unionidFront (v : UVal) : Except PyExn (List Int) :=
  match v with
  | .ustr s => unionidDecode s
  | .utup t => .ok t
  | .uother => .error .typeError

/-- The validate function produced by `create_unionid_validator(tuple_class)`:
decode string inputs via `unionid.decode(value)`, then build the named tuple
or re-encode, catching `UnionIdError`, `TypeError` and `ValueError` and
re-raising them as `Invalid` with the original message. -/
def unionid_validator_validate (arity : Nat) (output_object : Bool) (v : UVal) :
    Except VErr UOut :=
  let inner : Except PyExn UOut :=
    match unionidFront v with
    | .error e => .error e
    | .ok t => unionidFinish arity output_object t
  match inner with
  | .ok r => .ok r
  | .error e => if unionidCaught e then .error (.invalid e) else .error (.uncaught e)

lemma unionidEncode_all (t : List Int) (tok : PyStr)
    (henc : unionidEncode t = .ok tok) :
    (∀ x ∈ t, 0 ≤ x) ∧ tok = joinSep [45] (t.map fun x => natToB62 x.toNat) := by
  by_cases hall : t.all (fun x => decide (0 ≤ x ∧ x ≤ (MAX_COMPONENT : Int))) = true
  · constructor
    · intro x hx
      have := of_decide_eq_true (List.all_eq_true.mp hall x hx)
      exact this.1
    · unfold unionidEncode at henc
      rw [if_pos hall] at henc
      exact (Except.ok.inj henc).symm
  · exfalso
    unfold unionidEncode at henc
    rw [if_neg hall] at henc
    exact Except.noConfusion henc

lemma unionid_decode_of_encode (t : List Int) (tok : PyStr) (hne : t ≠ [])
    (henc : unionidEncode t = .ok tok) : unionidDecode tok = .ok t := by
  obtain ⟨h0, htok⟩ := unionidEncode_all t tok henc
  rw [htok]
  exact unionid_roundtrip_core t h0 hne

/-- C2: for every tuple `t` of non-negative integers within the supported
bound and of supported arity (2 or 3), decoding the token produced by
encoding `t` while expecting `arity t` returns exactly `t` — both at the
codec level and through the unionid validator of matching arity. -/
theorem c2_unionid_encode_decode_roundtrip (t : List Int) (tok : PyStr)
    (hlen : t.length = 2 ∨ t.length = 3)
    (hrange : ∀ x ∈ t, 0 ≤ x ∧ x ≤ (MAX_COMPONENT : Int))
    (henc : unionidEncode t = .ok tok) :
    unionidDecode tok = .ok t ∧
    unionid_validator_validate t.length true (.ustr tok) = .ok (.otup t) := by
  have hne : t ≠ [] := by
    intro he
    rw [he] at hlen
    simp at hlen
  have hdec := unionid_decode_of_encode t tok hne henc
  refine ⟨hdec, ?_⟩
  simp only [unionid_validator_validate, unionidFront]
  rw [hdec]
  dsimp only
  unfold unionidFinish
  simp

/-- Witness for C2 at `t = (1, 2)`, token `"1-2"`. -/
theorem c2_witness :
    unionidDecode [49, 45, 50] = .ok [1, 2] ∧
    unionid_validator_validate 2 true (.ustr [49, 45, 50]) = .ok (.otup [1, 2]) :=
  c2_unionid_encode_decode_roundtrip [1, 2] [49, 45, 50] (Or.inl rfl)
    (by decide) (by decide)

/-- C4 counterexample: the token for the arity-2 tuple `(1, 2)` passed to a
validator bound to arity 3 with `output_object=False` does NOT fail — the
code re-encodes the decoded components via `unionid.encode(*value)` without
any arity check and returns the token. -/
theorem c4_counterexample :
    unionidEncode [1, 2] = .ok [49, 45, 50] ∧
    unionid_validator_validate 3 false (.ustr [49, 45, 50])
      = .ok (.ostr [49, 45, 50]) := by decide

/-- C4 amended: the component-count check happens only in the
`output_object=True` branch, where `tuple_class(*value)` raises `TypeError`
(converted to `Invalid`) on an arity mismatch; with `output_object=False`
the decoded components are re-encoded with no arity check and the validator
succeeds. -/
theorem c4_arity_check_only_with_output_object (t : List Int) (tok : PyStr)
    (arity : Nat) (hne : t ≠ []) (hmis : t.length ≠ arity)
    (henc : unionidEncode t = .ok tok) :
    unionid_validator_validate arity true (.ustr tok)
      = .error (.invalid .typeError) ∧
    unionid_validator_validate arity false (.ustr tok) = .ok (.ostr tok) := by
  have hdec := unionid_decode_of_encode t tok hne henc
  constructor
  · simp only [unionid_validator_validate, unionidFront]
    rw [hdec]
    dsimp only
    unfold unionidFinish
    rw [if_pos rfl, if_neg hmis]
    rfl
  · simp only [unionid_validator_validate, unionidFront]
    rw [hdec]
    dsimp only
    unfold unionidFinish
    rw [if_neg (by simp), henc]

/-- Witness for the amended C4 at the arity-2 token `"1-2"` and a validator
of arity 3. -/
theorem c4_witness :
    unionid_validator_validate 3 true (.ustr [49, 45, 50])
      = .error (.invalid .typeError) ∧
    unionid_validator_validate 3 false (.ustr [49, 45, 50])
      = .ok (.ostr [49, 45, 50]) :=
  c4_arity_check_only_with_output_object [1, 2] [49, 45, 50] 3
    (by decide) (by decide) (by decide)

/-! ## UTF-8 (Python `str.encode('utf-8')` / `bytes.decode('utf-8')`) -/

/-- One code point to its UTF-8 bytes.  CPython's strict encoder raises
`UnicodeEncodeError` on lone surrogates and on values above `0x10FFFF`. -/
def utf8EncodeCp (n : Nat) : Except PyExn (List Nat) :=
  if n < 0x80 then .ok [n]
  else if n < 0x800 then .ok [0xC0 + n / 64, 0x80 + n % 64]
  else if n < 0xD800 then .ok [0xE0 + n / 4096, 0x80 + n / 64 % 64, 0x80 + n % 64]
  else if n < 0xE000 then .error .unicodeEncodeError
  else if n < 0x10000 then .ok [0xE0 + n / 4096, 0x80 + n / 64 % 64, 0x80 + n % 64]
  else if n < 0x110000 then
    .ok [0xF0 + n / 262144, 0x80 + n / 4096 % 64, 0x80 + n / 64 % 64, 0x80 + n % 64]
  else .error .unicodeEncodeError

/-- `str.encode('utf-8')`: concatenate the encodings of the code points. -/
def utf8Encode : PyStr → Except PyExn (List Nat)
  | [] => .ok []
  | c :: cs =>
      match utf8EncodeCp c, utf8Encode cs with
      | .ok bs, .ok rest => .ok (bs ++ rest)
      | .error e, _ => .error e
      | _, .error e => .error e

/-- UTF-8 continuation byte test. -/
def utf8Cont (b : Nat) : Bool := decide (0x80 ≤ b) && decide (b < 0xC0)

/-- Non-recursive handler for a 2-byte sequence lead `b` (`k` is the
decoder for the remaining bytes). -/
def utf8Tail2 (k : List Nat → Except PyExn PyStr) (b : Nat) :
    List Nat → Except PyExn PyStr
  | b2 :: r2 =>
      if utf8Cont b2 then (k r2).map (fun s => ((b - 0xC0) * 64 + (b2 - 0x80)) :: s)
      else .error .unicodeDecodeError
  | [] => .error .unicodeDecodeError

/-- Non-recursive handler for a 3-byte sequence lead `b`: checks the
continuation bytes, the overlong bound `0x800` and rejects surrogates. -/
def utf8Tail3 (k : List Nat → Except PyExn PyStr) (b : Nat) :
    List Nat → Except PyExn PyStr
  | b2 :: b3 :: r3 =>
      if utf8Cont b2 && utf8Cont b3
          && decide (0x800 ≤ (b - 0xE0) * 4096 + (b2 - 0x80) * 64 + (b3 - 0x80))
          && !(decide (0xD800 ≤ (b - 0xE0) * 4096 + (b2 - 0x80) * 64 + (b3 - 0x80))
              && decide ((b - 0xE0) * 4096 + (b2 - 0x80) * 64 + (b3 - 0x80) < 0xE000)) then
        (k r3).map (fun s => ((b - 0xE0) * 4096 + (b2 - 0x80) * 64 + (b3 - 0x80)) :: s)
      else .error .unicodeDecodeError
  | _ => .error .unicodeDecodeError

/-- Non-recursive handler for a 4-byte sequence lead `b`: checks the
continuation bytes, the overlong bound `0x10000` and the cap `0x10FFFF`. -/
def utf8Tail4 (k : List Nat → Except PyExn PyStr) (b : Nat) :
    List Nat → Except PyExn PyStr
  | b2 :: b3 :: b4 :: r4 =>
      if utf8Cont b2 && utf8Cont b3 && utf8Cont b4
          && decide (0x10000 ≤
              (b - 0xF0) * 262144 + (b2 - 0x80) * 4096 + (b3 - 0x80) * 64 + (b4 - 0x80))
          && decide ((b - 0xF0) * 262144 + (b2 - 0x80) * 4096
              + (b3 - 0x80) * 64 + (b4 - 0x80) < 0x110000) then
        (k r4).map (fun s => ((b - 0xF0) * 262144 + (b2 - 0x80) * 4096
            + (b3 - 0x80) * 64 + (b4 - 0x80)) :: s)
      else .error .unicodeDecodeError
  | _ => .error .unicodeDecodeError

/-- `bytes.decode('utf-8')` (strict) with an explicit fuel argument (any
fuel at least the byte count gives the same result; each step consumes at
least one byte).  Rejects invalid lead bytes (including the overlong leads
`0xC0`/`0xC1`), bad continuations, overlong forms, surrogates and values
above `0x10FFFF`, raising `UnicodeDecodeError`. -/
def utf8DecodeAux : Nat → List Nat → Except PyExn PyStr
  | _, [] => .ok []
  | 0, _ :: _ => .error .unicodeDecodeError
  | fuel + 1, b :: rest =>
      if b < 0x80 then (utf8DecodeAux fuel rest).map (fun s => b :: s)
      else if b < 0xC2 then .error .unicodeDecodeError
      else if b < 0xE0 then utf8Tail2 (utf8DecodeAux fuel) b rest
      else if b < 0xF0 then utf8Tail3 (utf8DecodeAux fuel) b rest
      else if b < 0xF5 then utf8Tail4 (utf8DecodeAux fuel) b rest
      else .error .unicodeDecodeError

/-- `bytes.decode('utf-8')` (strict). -/
def utf8Decode (bs : List Nat) : Except PyExn PyStr := utf8DecodeAux bs.length bs

/-! ### UTF-8 round-trip lemmas -/

lemma utf8EncodeCp_ok_of_scalar (c : Nat) (h : ScalarCp c) :
    ∃ bs, utf8EncodeCp c = .ok bs := by
  unfold ScalarCp at h
  unfold utf8EncodeCp
  split_ifs <;> first
    | exact ⟨_, rfl⟩
    | (exfalso; omega)

lemma utf8EncodeCp_bytes_lt (c : Nat) (bs : List Nat)
    (he : utf8EncodeCp c = .ok bs) : ∀ b ∈ bs, b < 256 := by
  unfold utf8EncodeCp at he
  split_ifs at he <;>
    first
      | exact Except.noConfusion he
      | · obtain rfl := Except.ok.inj he
          intro b hb
          simp only [List.mem_cons, List.not_mem_nil, or_false] at hb
          omega

lemma utf8DecodeAux_nil (fuel : Nat) : utf8DecodeAux fuel [] = .ok [] := by
  cases fuel <;> rfl

lemma utf8DecodeAux_encodeCp_append (c : Nat) (bs : List Nat)
    (he : utf8EncodeCp c = .ok bs) (rest : List Nat) (s : PyStr)
    (hrest : ∀ f, rest.length ≤ f → utf8DecodeAux f rest = .ok s) :
    ∀ fuel, (bs ++ rest).length ≤ fuel →
      utf8DecodeAux fuel (bs ++ rest) = .ok (c :: s) := by
  intro fuel hf
  unfold utf8EncodeCp at he
  by_cases h1 : c < 0x80
  · rw [if_pos h1] at he
    obtain rfl := Except.ok.inj he
    simp only [List.cons_append, List.nil_append, List.length_cons] at hf ⊢
    obtain ⟨f, rfl⟩ : ∃ f, fuel = f + 1 := ⟨fuel - 1, by omega⟩
    simp only [utf8DecodeAux]
    rw [if_pos h1, hrest f (by omega)]
    rfl
  · rw [if_neg h1] at he
    by_cases h2 : c < 0x800
    · rw [if_pos h2] at he
      obtain rfl := Except.ok.inj he
      simp only [List.cons_append, List.nil_append, List.length_cons] at hf ⊢
      obtain ⟨f, rfl⟩ : ∃ f, fuel = f + 1 := ⟨fuel - 1, by omega⟩
      simp only [utf8DecodeAux]
      rw [if_neg (by omega), if_neg (by omega), if_pos (by omega)]
      simp only [utf8Tail2]
      have hcont : utf8Cont (0x80 + c % 64) = true := by
        simp only [utf8Cont, Bool.and_eq_true, decide_eq_true_eq]
        omega
      rw [hcont]
      simp only [if_true]
      rw [hrest f (by omega)]
      have hn : (0xC0 + c / 64 - 0xC0) * 64 + (0x80 + c % 64 - 0x80) = c := by omega
      rw [hn]
      rfl
    · rw [if_neg h2] at he
      by_cases h3 : c < 0xD800
      case neg =>
        rw [if_neg h3] at he
        by_cases h4 : c < 0xE000
        · rw [if_pos h4] at he
          exact Except.noConfusion he
        · rw [if_neg h4] at he
          by_cases h5 : c < 0x10000
          case pos =>
            rw [if_pos h5] at he
            obtain rfl := Except.ok.inj he
            simp only [List.cons_append, List.nil_append, List.length_cons] at hf ⊢
            obtain ⟨f, rfl⟩ : ∃ f, fuel = f + 1 := ⟨fuel - 1, by omega⟩
            simp only [utf8DecodeAux]
            rw [if_neg (by omega), if_neg (by omega), if_neg (by omega), if_pos (by omega)]
            simp only [utf8Tail3]
            have hn : (0xE0 + c / 4096 - 0xE0) * 4096 + (0x80 + c / 64 % 64 - 0x80) * 64
                + (0x80 + c % 64 - 0x80) = c := by omega
            rw [hn]
            have hcond : (utf8Cont (0x80 + c / 64 % 64) && utf8Cont (0x80 + c % 64)
                && decide (0x800 ≤ c) && !(decide (0xD800 ≤ c) && decide (c < 0xE000)))
                = true := by
              simp only [utf8Cont, Bool.and_eq_true, Bool.not_eq_true', Bool.and_eq_false_iff,
                decide_eq_true_eq, decide_eq_false_iff_not, not_le, not_lt]
              refine ⟨⟨⟨⟨by omega, by omega⟩, ⟨by omega, by omega⟩⟩, by omega⟩, ?_⟩
              right
              omega
            rw [hcond]
            simp only [if_true]
            rw [hrest f (by omega)]
            rfl
          case neg =>
            rw [if_neg h5] at he
            by_cases h6 : c < 0x110000
            · rw [if_pos h6] at he
              obtain rfl := Except.ok.inj he
              simp only [List.cons_append, List.nil_append, List.length_cons] at hf ⊢
              obtain ⟨f, rfl⟩ : ∃ f, fuel = f + 1 := ⟨fuel - 1, by omega⟩
              simp only [utf8DecodeAux]
              rw [if_neg (by omega), if_neg (by omega), if_neg (by omega), if_neg (by omega),
                if_pos (by omega)]
              simp only [utf8Tail4]
              have hn : (0xF0 + c / 262144 - 0xF0) * 262144
                  + (0x80 + c / 4096 % 64 - 0x80) * 4096
                  + (0x80 + c / 64 % 64 - 0x80) * 64 + (0x80 + c % 64 - 0x80) = c := by omega
              rw [hn]
              have hcond : (utf8Cont (0x80 + c / 4096 % 64) && utf8Cont (0x80 + c / 64 % 64)
                  && utf8Cont (0x80 + c % 64) && decide (0x10000 ≤ c)
                  && decide (c < 0x110000)) = true := by
                simp only [utf8Cont, Bool.and_eq_true, decide_eq_true_eq]
                omega
              rw [hcond]
              simp only [if_true]
              rw [hrest f (by omega)]
              rfl
            · rw [if_neg h6] at he
              exact Except.noConfusion he
      case pos =>
        rw [if_pos h3] at he
        obtain rfl := Except.ok.inj he
        simp only [List.cons_append, List.nil_append, List.length_cons] at hf ⊢
        obtain ⟨f, rfl⟩ : ∃ f, fuel = f + 1 := ⟨fuel - 1, by omega⟩
        simp only [utf8DecodeAux]
        rw [if_neg (by omega), if_neg (by omega), if_neg (by omega), if_pos (by omega)]
        simp only [utf8Tail3]
        have hn : (0xE0 + c / 4096 - 0xE0) * 4096 + (0x80 + c / 64 % 64 - 0x80) * 64
            + (0x80 + c % 64 - 0x80) = c := by omega
        rw [hn]
        have hcond : (utf8Cont (0x80 + c / 64 % 64) && utf8Cont (0x80 + c % 64)
            && decide (0x800 ≤ c) && !(decide (0xD800 ≤ c) && decide (c < 0xE000)))
            = true := by
          simp only [utf8Cont, Bool.and_eq_true, Bool.not_eq_true', Bool.and_eq_false_iff,
            decide_eq_true_eq, decide_eq_false_iff_not, not_le, not_lt]
          refine ⟨⟨⟨⟨by omega, by omega⟩, ⟨by omega, by omega⟩⟩, by omega⟩, ?_⟩
          left
          omega
        rw [hcond]
        simp only [if_true]
        rw [hrest f (by omega)]
        rfl

/-- Combined UTF-8 round trip over scalar code points, with byte bounds. -/
lemma utf8_roundtrip : ∀ s : PyStr, (∀ c ∈ s, ScalarCp c) →
    ∃ bs, utf8Encode s = .ok bs ∧ (∀ b ∈ bs, b < 256) ∧
      ∀ fuel, bs.length ≤ fuel → utf8DecodeAux fuel bs = .ok s := by
  intro s
  induction s with
  | nil => exact fun _ => ⟨[], rfl, by simp, fun fuel _ => utf8DecodeAux_nil fuel⟩
  | cons c cs ih =>
      intro h
      obtain ⟨bs, he, hb, hd⟩ := ih (fun x hx => h x (by simp [hx]))
      obtain ⟨cb, hcb⟩ := utf8EncodeCp_ok_of_scalar c (h c (by simp))
      refine ⟨cb ++ bs, ?_, ?_, ?_⟩
      · simp only [utf8Encode]
        rw [hcb, he]
      · intro b hbm
        rcases List.mem_append.mp hbm with hm | hm
        · exact utf8EncodeCp_bytes_lt c cb hcb b hm
        · exact hb b hm
      · exact utf8DecodeAux_encodeCp_append c cb hcb bs cs hd

/-- UTF-8 round trip phrased for `utf8Decode`. -/
lemma utf8_encode_decode (s : PyStr) (h : ∀ c ∈ s, ScalarCp c) :
    ∃ bs, utf8Encode s = .ok bs ∧ (∀ b ∈ bs, b < 256) ∧ utf8Decode bs = .ok s := by
  obtain ⟨bs, he, hb, hd⟩ := utf8_roundtrip s h
  exact ⟨bs, he, hb, hd bs.length (le_refl _)⟩

end Rssant

example : Rssant.coerce_url (Rssant.pstr " feed://x.com ") = Rssant.pstr "http://x.com" := by decide

example : Rssant.utf8Encode (Rssant.pstr "aé€𝄞") = .ok
    [97, 195, 169, 226, 130, 172, 240, 157, 132, 158] := by decide

example : Rssant.utf8Decode [97, 195, 169, 226, 130, 172, 240, 157, 132, 158]
    = .ok (Rssant.pstr "aé€𝄞") := by decide

example : Rssant.utf8Decode [0xC0, 0x80] = .error .unicodeDecodeError := by decide

example : Rssant.utf8Decode [0xED, 0xA0, 0x80] = .error .unicodeDecodeError := by decide

example : Rssant.utf8EncodeCp 0xD800 = .error .unicodeEncodeError := by decide

example : Rssant.unionidEncode [1, 2] = .ok [49, 45, 50] := by decide

example : Rssant.unionidEncode [0, 75] = .ok [48, 45, 49, 68] := by decide

example : Rssant.unionidDecode [48, 45, 49, 68] = .ok [0, 75] := by decide

example : Rssant.unionidEncode [-1, 5] = .error .rangeError := by decide

example : Rssant.unionidDecode [49, 33] = .error .invalidTokenError := by decide

example : Rssant.coerce_url (Rssant.pstr "x.com") = Rssant.pstr "http://x.com" := by decide

example : Rssant.coerce_url (Rssant.pstr "https://x.com") = Rssant.pstr "https://x.com" := by decide

namespace Rssant

/-! ## URL-safe base64 (`base64.urlsafe_b64encode` / `urlsafe_b64decode`) -/

/-- Sextet value to its url-safe alphabet byte (`A-Za-z0-9-_`):
`urlsafe_b64encode` is standard base64 followed by translating `+/` to
`-_`; this composes the two. -/
def b64UrlChar (v : Nat) : Nat :=
  if v < 26 then 65 + v
  else if v < 52 then 71 + v
  else if v < 62 then v - 4
  else if v = 62 then 45
  else 95

/-- `base64.urlsafe_b64encode` over bytes, producing the byte values of the
output characters, with `=` (61) padding. -/
def b64enc : List Nat → List Nat
  | [] => []
  | [b1] => [b64UrlChar (b1 / 4), b64UrlChar (b1 % 4 * 16), 61, 61]
  | [b1, b2] =>
      [b64UrlChar (b1 / 4), b64UrlChar (b1 % 4 * 16 + b2 / 16),
        b64UrlChar (b2 % 16 * 4), 61]
  | b1 :: b2 :: b3 :: rest =>
      b64UrlChar (b1 / 4) :: b64UrlChar (b1 % 4 * 16 + b2 / 16)
        :: b64UrlChar (b2 % 16 * 4 + b3 / 64) :: b64UrlChar (b3 % 64) :: b64enc rest

/-- The `-_` → `+/` byte translation applied by `urlsafe_b64decode` before
calling `binascii.a2b_base64`. -/
def b64UrlTranslate (b : Nat) : Nat :=
  if b = 45 then 43 else if b = 95 then 47 else b

/-- Standard-alphabet sextet value of a byte (`A-Z a-z 0-9 + /`), `none`
for a byte outside the alphabet (CPython's `table_a2b_base64`; the pad `=`
is handled separately by the main loop). -/
def b64StdVal (b : Nat) : Option Nat :=
  if 65 ≤ b ∧ b ≤ 90 then some (b - 65)
  else if 97 ≤ b ∧ b ≤ 122 then some (b - 71)
  else if 48 ≤ b ∧ b ≤ 57 then some (b + 4)
  else if b = 43 then some 62
  else if b = 47 then some 63
  else none

/-- CPython's `binascii_find_valid`: the first byte that is the pad or in
the base64 table (bytes above `0x7F` are never valid). -/
def b64FindValid : List Nat → Option Nat
  | [] => none
  | b :: rest =>
      if b ≤ 127 ∧ (b = 61 ∨ b64StdVal b ≠ none) then some b
      else b64FindValid rest

/-- CPython's legacy (non-strict) `binascii.a2b_base64` main loop:
`quadPos`, `leftchar` and `leftbits` model the C variables; bytes above
`0x7F` and CR/LF/space are skipped, as is any byte outside the alphabet; a
pad at `quadPos ≥ 2` (for `quadPos = 2` only when the next valid byte is
also a pad) ends decoding with the bytes emitted so far; leftover bits at
the end of input raise `binascii.Error` ("Incorrect padding", a
`ValueError`). -/
def a2bBase64 : List Nat → Nat → Nat → Nat → Except PyExn (List Nat)
  | [], _, _, leftbits => if leftbits = 0 then .ok [] else .error .binasciiError
  | b :: rest, quadPos, leftchar, leftbits =>
      if b > 127 ∨ b = 13 ∨ b = 10 ∨ b = 32 then a2bBase64 rest quadPos leftchar leftbits
      else if b = 61 then
        if quadPos < 2 ∨ (quadPos = 2 ∧ b64FindValid rest ≠ some 61) then
          a2bBase64 rest quadPos leftchar leftbits
        else .ok []
      else
        match b64StdVal b with
        | none => a2bBase64 rest quadPos leftchar leftbits
        | some v =>
            if leftbits + 6 ≥ 8 then
              (a2bBase64 rest ((quadPos + 1) % 4) ((leftchar * 64 + v) % 2 ^ (leftbits + 6 - 8))
                  (leftbits + 6 - 8)).map
                (fun bs => (leftchar * 64 + v) / 2 ^ (leftbits + 6 - 8) % 256 :: bs)
            else a2bBase64 rest ((quadPos + 1) % 4) (leftchar * 64 + v) (leftbits + 6)

/-- `base64.urlsafe_b64decode` over the byte values of the input string. -/
def urlsafeB64Decode (bs : List Nat) : Except PyExn (List Nat) :=
  a2bBase64 (bs.map b64UrlTranslate) 0 0 0

end Rssant

example : Rssant.b64enc (Rssant.pstr "a:1") = Rssant.pstr "YTox" := by decide

example : Rssant.b64enc (Rssant.pstr "a") = Rssant.pstr "YQ==" := by decide

example : Rssant.b64enc (Rssant.pstr "ab") = Rssant.pstr "YWI=" := by decide

example : Rssant.urlsafeB64Decode (Rssant.pstr "YTox") = .ok (Rssant.pstr "a:1") := by decide

example : Rssant.urlsafeB64Decode (Rssant.pstr "YQ==") = .ok (Rssant.pstr "a") := by decide

example : Rssant.urlsafeB64Decode (Rssant.pstr "!") = .ok [] := by decide

example : Rssant.urlsafeB64Decode (Rssant.pstr "YQ") = .error .binasciiError := by decide

example : Rssant.urlsafeB64Decode (Rssant.pstr "YQ=") = .error .binasciiError := by decide

example : Rssant.urlsafeB64Decode (Rssant.pstr "_-A=") = .ok [255, 224] := by decide

namespace Rssant

/-! ### Base64 round-trip lemmas -/

lemma b64_char_facts : ∀ v : Nat, v < 64 →
    (b64UrlChar v ≤ 127 ∧
     ¬(b64UrlTranslate (b64UrlChar v) > 127 ∨ b64UrlTranslate (b64UrlChar v) = 13 ∨
       b64UrlTranslate (b64UrlChar v) = 10 ∨ b64UrlTranslate (b64UrlChar v) = 32) ∧
     b64UrlTranslate (b64UrlChar v) ≠ 61 ∧
     b64StdVal (b64UrlTranslate (b64UrlChar v)) = some v) := by decide

lemma a2bBase64_data_step (b v : Nat) (rest : List Nat) (qp lc lb : Nat)
    (hskip : ¬(b > 127 ∨ b = 13 ∨ b = 10 ∨ b = 32)) (hpad : b ≠ 61)
    (hv : b64StdVal b = some v) :
    a2bBase64 (b :: rest) qp lc lb =
      if lb + 6 ≥ 8 then
        (a2bBase64 rest ((qp + 1) % 4) ((lc * 64 + v) % 2 ^ (lb + 6 - 8)) (lb + 6 - 8)).map
          (fun bs => (lc * 64 + v) / 2 ^ (lb + 6 - 8) % 256 :: bs)
      else a2bBase64 rest ((qp + 1) % 4) (lc * 64 + v) (lb + 6) := by
  simp only [a2bBase64]
  rw [if_neg hskip, if_neg hpad, hv]

lemma a2b_step0 (b v : Nat) (rest : List Nat) (qp lc : Nat)
    (hskip : ¬(b > 127 ∨ b = 13 ∨ b = 10 ∨ b = 32)) (hpad : b ≠ 61)
    (hv : b64StdVal b = some v) :
    a2bBase64 (b :: rest) qp lc 0 = a2bBase64 rest ((qp + 1) % 4) (lc * 64 + v) 6 := by
  rw [a2bBase64_data_step b v rest qp lc 0 hskip hpad hv]
  norm_num

lemma a2b_step6 (b v : Nat) (rest : List Nat) (qp lc : Nat)
    (hskip : ¬(b > 127 ∨ b = 13 ∨ b = 10 ∨ b = 32)) (hpad : b ≠ 61)
    (hv : b64StdVal b = some v) :
    a2bBase64 (b :: rest) qp lc 6 =
      (a2bBase64 rest ((qp + 1) % 4) ((lc * 64 + v) % 16) 4).map
        (fun bs => (lc * 64 + v) / 16 % 256 :: bs) := by
  rw [a2bBase64_data_step b v rest qp lc 6 hskip hpad hv]
  norm_num

lemma a2b_step4 (b v : Nat) (rest : List Nat) (qp lc : Nat)
    (hskip : ¬(b > 127 ∨ b = 13 ∨ b = 10 ∨ b = 32)) (hpad : b ≠ 61)
    (hv : b64StdVal b = some v) :
    a2bBase64 (b :: rest) qp lc 4 =
      (a2bBase64 rest ((qp + 1) % 4) ((lc * 64 + v) % 4) 2).map
        (fun bs => (lc * 64 + v) / 4 % 256 :: bs) := by
  rw [a2bBase64_data_step b v rest qp lc 4 hskip hpad hv]
  norm_num

lemma a2b_step2 (b v : Nat) (rest : List Nat) (qp lc : Nat)
    (hskip : ¬(b > 127 ∨ b = 13 ∨ b = 10 ∨ b = 32)) (hpad : b ≠ 61)
    (hv : b64StdVal b = some v) :
    a2bBase64 (b :: rest) qp lc 2 =
      (a2bBase64 rest ((qp + 1) % 4) 0 0).map
        (fun bs => (lc * 64 + v) % 256 :: bs) := by
  rw [a2bBase64_data_step b v rest qp lc 2 hskip hpad hv]
  norm_num [Nat.mod_one]

lemma a2b_pad_end_qp2 (rest : List Nat) (lc : Nat)
    (hfind : b64FindValid rest = some 61) :
    a2bBase64 (61 :: rest) 2 lc 4 = .ok [] := by
  simp only [a2bBase64]
  rw [if_neg (by norm_num)]
  simp only [if_true]
  rw [if_neg (by
    intro hc
    rcases hc with hc | ⟨-, hc⟩
    · omega
    · exact hc hfind)]

lemma a2b_pad_end_qp3 (rest : List Nat) (lc lb : Nat) :
    a2bBase64 (61 :: rest) 3 lc lb = .ok [] := by
  simp only [a2bBase64]
  rw [if_neg (by norm_num)]
  simp only [if_true]
  rw [if_neg (by
    intro hc
    rcases hc with hc | ⟨hc, -⟩ <;> omega)]

lemma a2b_quad (b1 b2 b3 : Nat) (h1 : b1 < 256) (h2 : b2 < 256) (h3 : b3 < 256)
    (tail : List Nat) :
    a2bBase64 (b64UrlTranslate (b64UrlChar (b1 / 4)) ::
        b64UrlTranslate (b64UrlChar (b1 % 4 * 16 + b2 / 16)) ::
        b64UrlTranslate (b64UrlChar (b2 % 16 * 4 + b3 / 64)) ::
        b64UrlTranslate (b64UrlChar (b3 % 64)) :: tail) 0 0 0 =
      (a2bBase64 tail 0 0 0).map (fun bs => b1 :: b2 :: b3 :: bs) := by
  obtain ⟨-, hS1, hP1, hV1⟩ := b64_char_facts (b1 / 4) (by omega)
  obtain ⟨-, hS2, hP2, hV2⟩ := b64_char_facts (b1 % 4 * 16 + b2 / 16) (by omega)
  obtain ⟨-, hS3, hP3, hV3⟩ := b64_char_facts (b2 % 16 * 4 + b3 / 64) (by omega)
  obtain ⟨-, hS4, hP4, hV4⟩ := b64_char_facts (b3 % 64) (by omega)
  rw [a2b_step0 _ _ _ _ _ hS1 hP1 hV1]
  rw [a2b_step6 _ _ _ _ _ hS2 hP2 hV2]
  rw [a2b_step4 _ _ _ _ _ hS3 hP3 hV3]
  rw [a2b_step2 _ _ _ _ _ hS4 hP4 hV4]
  norm_num
  cases htail : a2bBase64 tail 0 0 0 with
  | error e => simp [Except.map]
  | ok bs =>
      simp only [Except.map]
      refine congrArg Except.ok ?_
      simp only [List.cons.injEq]
      refine ⟨by omega, by omega, by omega, trivial⟩

lemma a2b_b64enc_padded1 (b1 : Nat) (h1 : b1 < 256) :
    a2bBase64 ((b64enc [b1]).map b64UrlTranslate) 0 0 0 = .ok [b1] := by
  simp only [b64enc, List.map_cons, List.map_nil]
  rw [show b64UrlTranslate 61 = 61 from rfl]
  obtain ⟨-, hS1, hP1, hV1⟩ := b64_char_facts (b1 / 4) (by omega)
  obtain ⟨-, hS2, hP2, hV2⟩ := b64_char_facts (b1 % 4 * 16) (by omega)
  rw [a2b_step0 _ _ _ _ _ hS1 hP1 hV1]
  rw [a2b_step6 _ _ _ _ _ hS2 hP2 hV2]
  norm_num
  rw [a2b_pad_end_qp2 _ _ (by decide)]
  simp only [Except.map]
  refine congrArg Except.ok ?_
  simp only [List.cons.injEq]
  exact ⟨by omega, trivial⟩

lemma a2b_b64enc_padded2 (b1 b2 : Nat) (h1 : b1 < 256) (h2 : b2 < 256) :
    a2bBase64 ((b64enc [b1, b2]).map b64UrlTranslate) 0 0 0 = .ok [b1, b2] := by
  simp only [b64enc, List.map_cons, List.map_nil]
  rw [show b64UrlTranslate 61 = 61 from rfl]
  obtain ⟨-, hS1, hP1, hV1⟩ := b64_char_facts (b1 / 4) (by omega)
  obtain ⟨-, hS2, hP2, hV2⟩ := b64_char_facts (b1 % 4 * 16 + b2 / 16) (by omega)
  obtain ⟨-, hS3, hP3, hV3⟩ := b64_char_facts (b2 % 16 * 4) (by omega)
  rw [a2b_step0 _ _ _ _ _ hS1 hP1 hV1]
  rw [a2b_step6 _ _ _ _ _ hS2 hP2 hV2]
  rw [a2b_step4 _ _ _ _ _ hS3 hP3 hV3]
  norm_num
  rw [a2b_pad_end_qp3]
  simp only [Except.map]
  refine congrArg Except.ok ?_
  simp only [List.cons.injEq]
  exact ⟨by omega, by omega, trivial⟩

lemma a2b_b64enc : ∀ (n : Nat) (bs : List Nat), bs.length ≤ n → (∀ b ∈ bs, b < 256) →
    a2bBase64 ((b64enc bs).map b64UrlTranslate) 0 0 0 = .ok bs := by
  intro n
  induction n with
  | zero =>
      intro bs h _
      have hnil : bs = [] := List.eq_nil_of_length_eq_zero (by omega)
      subst hnil
      rfl
  | succ n ih =>
      intro bs h hb
      match bs, h, hb with
      | [], _, _ => rfl
      | [b1], _, hb => exact a2b_b64enc_padded1 b1 (hb b1 (by simp))
      | [b1, b2], _, hb =>
          exact a2b_b64enc_padded2 b1 b2 (hb b1 (by simp)) (hb b2 (by simp))
      | b1 :: b2 :: b3 :: rest, h, hb =>
          have hq := a2b_quad b1 b2 b3 (hb b1 (by simp)) (hb b2 (by simp))
            (hb b3 (by simp)) ((b64enc rest).map b64UrlTranslate)
          simp only [b64enc, List.map_cons]
          rw [hq, ih rest (by simp only [List.length_cons] at h; omega)
            (fun b hbm => hb b (by simp [hbm]))]
          rfl

/-- `urlsafe_b64decode (urlsafe_b64encode bytes) = bytes`. -/
lemma urlsafeB64Decode_b64enc (bs : List Nat) (hb : ∀ b ∈ bs, b < 256) :
    urlsafeB64Decode (b64enc bs) = .ok bs :=
  a2b_b64enc bs.length bs (le_refl _) hb

end Rssant

namespace Rssant

/-! ## Cursor model and codec

Modelled from the spec: the repository's `rssant_common/cursor.py` module is
not in the given source tree; only its caller `cursor_validator` in
`src/rssant_common/validator.py` is.  The spec (§3, §4.1) fixes the model:
an ordered, key-unique sequence of string pairs, grammar
`pair (',' pair)*` with `pair := key ':' value` (split on the first `:`
only), empty keys and duplicate keys rejected, a required-key check
listing all missing keys at once, and an empty input yielding the empty
Cursor when no required keys are demanded.  All parse failures are
`ValueError` subclasses (the adapter's `except` clause catches
`ValueError`). -/

/-- Modelled from the spec: a Cursor — ordered, key-unique string pairs;
two Cursors are equal iff they have the same entries in the same order. -/
structure Cursor where
  entries : List (PyStr × PyStr)
deriving DecidableEq

/-- The keys of a Cursor, in order. -/
def Cursor.keys (c : Cursor) : List PyStr := c.entries.map Prod.fst

/-- Modelled from the spec: the canonical rendering `k1:v1,k2:v2`
(`format(cursor)` / `str(cursor)`). -/
def Cursor.render (c : Cursor) : PyStr :=
  joinSep [44] (c.entries.map fun kv => kv.1 ++ 58 :: kv.2)

/-- Modelled from the spec: split one pair on the first `:`; `none` when no
`:` occurs (malformed pair). -/
def splitPair : PyStr → Option (PyStr × PyStr)
  | [] => none
  | c :: cs =>
      if c = 58 then some ([], cs)
      else (splitPair cs).map (fun kv => (c :: kv.1, kv.2))

/-- Modelled from the spec: fold the comma-split parts into entries,
rejecting a pair without `:` or with an empty key (`ParseError`) and a
repeated key (`DuplicateKeyError` naming the key), preserving
first-occurrence order. -/
def parsePairs : List PyStr → List (PyStr × PyStr) → Except PyExn (List (PyStr × PyStr))
  | [], acc => .ok acc
  | p :: ps, acc =>
      match splitPair p with
      | none => .error .cursorParseError
      | some (k, v) =>
          if k = [] then .error .cursorParseError
          else if k ∈ acc.map Prod.fst then .error (.duplicateKeyError k)
          else parsePairs ps (acc ++ [(k, v)])

/-- Modelled from the spec: the required-key check (`_check_missing_keys`):
every required key must be present, else `MissingKeyError` carrying all
missing keys at once. -/
def checkMissingKeys (required : Option (List PyStr)) (c : Cursor) :
    Except PyExn Unit :=
  match required with
  | none => .ok ()
  | some req =>
      match req.filter (fun k => decide (k ∉ c.keys)) with
      | [] => .ok ()
      | missing => .error (.missingKeyError missing)

/-- Modelled from the spec: `Cursor.from_string` — an empty input yields an
empty Cursor (failing the required-key check if keys are demanded);
otherwise split on `,`, parse the pairs, then check required keys. -/
def cursorFromString (s : PyStr) (required : Option (List PyStr)) :
    Except PyExn Cursor :=
  match (if s.isEmpty then Except.ok [] else parsePairs (splitChar 44 s) []) with
  | .error e => .error e
  | .ok es =>
      match checkMissingKeys required ⟨es⟩ with
      | .error e => .error e
      | .ok _ => .ok ⟨es⟩

/-- A delimiter-free scalar code point (allowed in keys and values). -/
def OkChar (c : Nat) : Prop := c ≠ 44 ∧ c ≠ 58 ∧ ScalarCp c

instance (c : Nat) : Decidable (OkChar c) := by
  unfold OkChar; infer_instance

/-- A valid entry: non-empty key, no delimiter characters, all characters
encodable scalar values. -/
def ValidEntry (kv : PyStr × PyStr) : Prop :=
  kv.1 ≠ [] ∧ (∀ c ∈ kv.1, OkChar c) ∧ (∀ c ∈ kv.2, OkChar c)

/-- A valid Cursor: valid entries with pairwise distinct keys. -/
def ValidCursor (c : Cursor) : Prop :=
  (∀ kv ∈ c.entries, ValidEntry kv) ∧ c.keys.Nodup

instance (kv : PyStr × PyStr) : Decidable (ValidEntry kv) := by
  unfold ValidEntry; infer_instance

instance (c : Cursor) : Decidable (ValidCursor c) := by
  unfold ValidCursor; infer_instance

end Rssant

example : Rssant.cursorFromString (Rssant.pstr "a:1,b:2") none
    = .ok ⟨[(Rssant.pstr "a", Rssant.pstr "1"), (Rssant.pstr "b", Rssant.pstr "2")]⟩ := by decide

example : Rssant.cursorFromString (Rssant.pstr "a:1,a:2") none
    = .error (.duplicateKeyError (Rssant.pstr "a")) := by decide

example : Rssant.cursorFromString (Rssant.pstr "a:1") (some [Rssant.pstr "a", Rssant.pstr "b"])
    = .error (.missingKeyError [Rssant.pstr "b"]) := by decide

example : Rssant.cursorFromString (Rssant.pstr "") none = .ok ⟨[]⟩ := by decide

example : Rssant.cursorFromString (Rssant.pstr "ab") none = .error .cursorParseError := by decide

example : Rssant.Cursor.render ⟨[(Rssant.pstr "a", Rssant.pstr "1")]⟩ = Rssant.pstr "a:1" := by
  decide

namespace Rssant

/-! ### Cursor parse / render round trip -/

lemma splitPair_rendered (k v : PyStr) (hk : 58 ∉ k) :
    splitPair (k ++ 58 :: v) = some (k, v) := by
  induction k with
  | nil => simp [splitPair]
  | cons c cs ih =>
      simp only [List.cons_append, splitPair, List.append_eq]
      rw [if_neg (by intro hc; exact hk (by simp [hc]))]
      rw [ih (fun hm => hk (by simp [hm]))]
      rfl

lemma parsePairs_rendered : ∀ (es acc : List (PyStr × PyStr)),
    (∀ kv ∈ es, kv.1 ≠ [] ∧ 58 ∉ kv.1) →
    ((acc ++ es).map Prod.fst).Nodup →
    parsePairs (es.map fun kv => kv.1 ++ 58 :: kv.2) acc = .ok (acc ++ es) := by
  intro es
  induction es with
  | nil =>
      intro acc _ _
      simp [parsePairs]
  | cons kv tl ih =>
      intro acc hval hnd
      obtain ⟨k, v⟩ := kv
      simp only [List.map_cons, parsePairs]
      rw [splitPair_rendered k v (hval (k, v) (by simp)).2]
      dsimp only
      rw [if_neg (hval (k, v) (by simp)).1]
      have hknotin : ¬ k ∈ acc.map Prod.fst := by
        intro hkin
        have hnd' := hnd
        rw [List.map_append, List.nodup_append] at hnd'
        exact hnd'.2.2 hkin (by simp)
      rw [if_neg hknotin]
      have hassoc : acc ++ (k, v) :: tl = (acc ++ [(k, v)]) ++ tl := by simp
      rw [hassoc] at hnd ⊢
      exact ih (acc ++ [(k, v)]) (fun kv2 hm => hval kv2 (by simp [hm])) hnd

lemma render_part_no_comma (kv : PyStr × PyStr) (h : ValidEntry kv) :
    44 ∉ kv.1 ++ 58 :: kv.2 := by
  intro hm
  rcases List.mem_append.mp hm with hm | hm
  · exact ((h.2.1 44 hm).1 rfl)
  · rcases List.mem_cons.mp hm with hm | hm
    · omega
    · exact ((h.2.2 44 hm).1 rfl)

lemma render_ne_nil (kv : PyStr × PyStr) (tl : List (PyStr × PyStr)) :
    Cursor.render ⟨kv :: tl⟩ ≠ [] := by
  unfold Cursor.render
  cases tl with
  | nil =>
      show joinSep [44] [kv.1 ++ 58 :: kv.2] ≠ []
      show kv.1 ++ 58 :: kv.2 ≠ []
      simp
  | cons kv2 tl2 =>
      show kv.1 ++ 58 :: kv.2 ++ [44] ++ _ ≠ []
      simp

/-- Modelled-spec invariant: `parse(format(c), None) == c` for every valid
Cursor. -/
lemma cursor_parse_render (c : Cursor) (h : ValidCursor c) :
    cursorFromString c.render none = .ok c := by
  obtain ⟨entries⟩ := c
  obtain ⟨hval, hnd⟩ := h
  cases entries with
  | nil => rfl
  | cons kv tl =>
      unfold cursorFromString
      rw [if_neg (by
        simp only [List.isEmpty_iff]
        exact render_ne_nil kv tl)]
      have hsplit : splitChar 44 (Cursor.render ⟨kv :: tl⟩)
          = (kv :: tl).map (fun kv => kv.1 ++ 58 :: kv.2) := by
        unfold Cursor.render
        apply splitChar_joinSep
        · simp
        · intro p hp
          obtain ⟨kv2, hkv2, rfl⟩ := List.mem_map.mp hp
          exact render_part_no_comma kv2 (hval kv2 hkv2)
      rw [hsplit]
      rw [parsePairs_rendered (kv :: tl) []
        (fun kv2 hm => ⟨(hval kv2 hm).1, fun hc => ((hval kv2 hm).2.1 58 hc).2.1 rfl⟩)
        (by simp only [List.nil_append]; exact hnd)]
      simp only [List.nil_append]
      rfl

end Rssant

namespace Rssant

/-! ## The cursor validator (src/rssant_common/validator.py) -/

/-- Membership of the `except (UnicodeEncodeError, UnicodeDecodeError,
ValueError)` clause of `cursor_validator`'s validate function. -/
def cursorCaught (ex : PyExn) : Bool :=
  match ex with
  | .unicodeEncodeError => true
  | .unicodeDecodeError => true
  | _ => isValueError ex

/-- Input to a cursor validate function (`accept=(str, object)`): a string,
an already-constructed `Cursor`, or a value of any other type. -/
inductive CVal where
  | vstr (s : PyStr)
  | vcur (c : Cursor)
  | vother
deriving DecidableEq

/-- Output of a cursor validate function: the `Cursor` object or the
(possibly base64-wrapped) canonical string. -/
inductive COut where
  | ocur (c : Cursor)
  | ostr (s : PyStr)
deriving DecidableEq

/-- `value.encode('ascii')`: `UnicodeEncodeError` on any non-ASCII code
point. -/
def asciiEncode : PyStr → Except PyExn (List Nat)
  | [] => .ok []
  | c :: cs =>
      if c < 128 then (asciiEncode cs).map (fun bs => c :: bs)
      else .error .unicodeEncodeError

/-- The transport unwrap of the `base64=True` input path:
`urlsafe_b64decode(value.encode('ascii')).decode('utf-8')`. -/
def transportDecode (s : PyStr) : Except PyExn PyStr :=
  match asciiEncode s with
  | .error e => .error e
  | .ok bs =>
      match urlsafeB64Decode bs with
      | .error e => .error e
      | .ok raw => utf8Decode raw

/-- The transport wrap of the `base64=True` output path:
`urlsafe_b64encode(value.encode('utf-8')).decode()` applied to the rendered
string (the `encode('utf-8')` can raise on a lone surrogate). -/
def transportEncode (s : PyStr) : Except PyExn PyStr :=
  match utf8Encode s with
  | .error e => .error e
  | .ok bs => .ok (b64enc bs)

/-- `encode_for_transport(cursor)` (spec §4.1): UTF-8-encode the canonical
rendering, then URL-safe base64 with padding — the `base64=True` output path
of `cursor_validator`. -/
def encodeForTransport (c : Cursor) : Except PyExn PyStr :=
  transportEncode c.render

/-- `decode_from_transport(s)` (spec §4.1): base64-decode, UTF-8-decode,
then parse — the `base64=True` input path of `cursor_validator`. -/
def decodeFromTransport (s : PyStr) (required : Option (List PyStr)) :
    Except PyExn Cursor :=
  match transportDecode s with
  | .error e => .error e
  | .ok txt => cursorFromString txt required

/-- The `try` block of `cursor_validator`'s validate function: a `Cursor`
instance gets `value._check_missing_keys(keys)`; a string is (for
`base64=True`, base64-unwrapped and then) parsed by
`Cursor.from_string(value, keys)`.  A value of any other type hits
`value.encode('ascii')` (base64 path) or the parse's string operations,
raising `AttributeError`. -/
def cursorFront (keys : Option (List PyStr)) (base64 : Bool) (v : CVal) :
    Except PyExn Cursor :=
  match v with
  | .vcur c =>
      match checkMissingKeys keys c with
      | .error e => .error e
      | .ok _ => .ok c
  | .vstr s =>
      if base64 then
        match transportDecode s with
        | .error e => .error e
        | .ok txt => cursorFromString txt keys
      else cursorFromString s keys
  | .vother => .error .attributeError

/-- The validate function compiled by `cursor_validator`
(src/rssant_common/validator.py): run the `try` block (`cursorFront`),
converting `UnicodeEncodeError`/`UnicodeDecodeError`/`ValueError` into
`Invalid` with the original message and letting anything else escape; then,
OUTSIDE the `try` block, return the Cursor object itself when
`output_object` is set, else `str(value)` wrapped by
`urlsafe_b64encode(... .encode('utf-8'))` when `base64` is set (an
exception there is uncaught). -/
def cursor_validator_validate (keys : Option (List PyStr)) (output_object : Bool)
    (base64 : Bool) (v : CVal) : Except VErr COut :=
  match cursorFront keys base64 v with
  | .error e => if cursorCaught e then .error (.invalid e) else .error (.uncaught e)
  | .ok c =>
      if output_object then .ok (.ocur c)
      else
        if base64 then
          match transportEncode c.render with
          | .error e => .error (.uncaught e)
          | .ok w => .ok (.ostr w)
        else .ok (.ostr c.render)

/-- Does the validate outcome leak a raw (uncaught) exception past the
adapter boundary? -/
def leakedErr {α : Type} : Except VErr α → Bool
  | .error (.uncaught _) => true
  | _ => false

end Rssant

example : Rssant.cursor_validator_validate none false true
    (.vstr (Rssant.pstr "YTox")) = .ok (.ostr (Rssant.pstr "YTox")) := by decide

example : Rssant.cursor_validator_validate none true true
    (.vstr (Rssant.pstr "YTox"))
    = .ok (.ocur ⟨[(Rssant.pstr "a", Rssant.pstr "1")]⟩) := by decide

example : Rssant.cursor_validator_validate none false false
    (.vstr (Rssant.pstr "a:1")) = .ok (.ostr (Rssant.pstr "a:1")) := by decide

example : Rssant.cursor_validator_validate none false true (.vstr (Rssant.pstr "!"))
    = .ok (.ostr []) := by decide

example : Rssant.cursor_validator_validate none false true .vother
    = .error (.uncaught .attributeError) := by decide

namespace Rssant

/-! ### C1: transport round trip -/

lemma joinSep_mem (sep : PyStr) :
    ∀ (parts : List PyStr) (x : Nat), x ∈ joinSep sep parts →
      x ∈ sep ∨ ∃ p ∈ parts, x ∈ p := by
  intro parts
  induction parts with
  | nil => intro x hx; exact absurd hx (List.not_mem_nil x)
  | cons p ps ih =>
      intro x hx
      cases ps with
      | nil =>
          right
          exact ⟨p, by simp, hx⟩
      | cons q qs =>
          rw [show joinSep sep (p :: q :: qs) = p ++ sep ++ joinSep sep (q :: qs) from rfl]
            at hx
          rcases List.mem_append.mp hx with hx | hx
          · rcases List.mem_append.mp hx with hx | hx
            · exact Or.inr ⟨p, by simp, hx⟩
            · exact Or.inl hx
          · rcases ih x hx with hx | ⟨r, hr, hxr⟩
            · exact Or.inl hx
            · exact Or.inr ⟨r, by simp [hr], hxr⟩

lemma render_scalar (c : Cursor) (h : ValidCursor c) :
    ∀ ch ∈ c.render, ScalarCp ch := by
  intro ch hch
  unfold Cursor.render at hch
  rcases joinSep_mem [44] _ ch hch with hm | ⟨p, hp, hchp⟩
  · simp only [List.mem_singleton] at hm
    subst hm
    left
    omega
  · obtain ⟨kv, hkv, rfl⟩ := List.mem_map.mp hp
    have hv := h.1 kv hkv
    rcases List.mem_append.mp hchp with hm | hm
    · exact (hv.2.1 ch hm).2.2
    · rcases List.mem_cons.mp hm with rfl | hm
      · left
        omega
      · exact (hv.2.2 ch hm).2.2

lemma b64UrlChar_lt128 : ∀ v : Nat, v < 64 → b64UrlChar v < 128 := by decide

lemma b64enc_lt128 : ∀ (n : Nat) (bs : List Nat), bs.length ≤ n →
    (∀ b ∈ bs, b < 256) → ∀ x ∈ b64enc bs, x < 128 := by
  intro n
  induction n with
  | zero =>
      intro bs h _
      have hnil : bs = [] := List.eq_nil_of_length_eq_zero (by omega)
      subst hnil
      intro x hx
      exact absurd hx (List.not_mem_nil x)
  | succ n ih =>
      intro bs h hb
      match bs, h, hb with
      | [], _, _ => intro x hx; exact absurd hx (List.not_mem_nil x)
      | [b1], _, hb =>
          intro x hx
          have h1 := hb b1 (by simp)
          simp only [b64enc, List.mem_cons, List.not_mem_nil, or_false] at hx
          rcases hx with rfl | rfl | rfl | rfl
          · exact b64UrlChar_lt128 _ (by omega)
          · exact b64UrlChar_lt128 _ (by omega)
          · omega
          · omega
      | [b1, b2], _, hb =>
          intro x hx
          have h1 := hb b1 (by simp)
          have h2 := hb b2 (by simp)
          simp only [b64enc, List.mem_cons, List.not_mem_nil, or_false] at hx
          rcases hx with rfl | rfl | rfl | rfl
          · exact b64UrlChar_lt128 _ (by omega)
          · exact b64UrlChar_lt128 _ (by omega)
          · exact b64UrlChar_lt128 _ (by omega)
          · omega
      | b1 :: b2 :: b3 :: rest, h, hb =>
          intro x hx
          have h1 := hb b1 (by simp)
          have h2 := hb b2 (by simp)
          have h3 := hb b3 (by simp)
          simp only [b64enc, List.mem_cons] at hx
          rcases hx with rfl | rfl | rfl | rfl | hx
          · exact b64UrlChar_lt128 _ (by omega)
          · exact b64UrlChar_lt128 _ (by omega)
          · exact b64UrlChar_lt128 _ (by omega)
          · exact b64UrlChar_lt128 _ (by omega)
          · exact ih rest (by simp only [List.length_cons] at h; omega)
              (fun b hbm => hb b (by simp [hbm])) x hx

lemma asciiEncode_ok (s : PyStr) (h : ∀ ch ∈ s, ch < 128) :
    asciiEncode s = .ok s := by
  induction s with
  | nil => rfl
  | cons c cs ih =>
      simp only [asciiEncode]
      rw [if_pos (h c (by simp)), ih (fun ch hm => h ch (by simp [hm]))]
      rfl

lemma transportDecode_b64enc (bs : List Nat) (hb : ∀ b ∈ bs, b < 256) :
    transportDecode (b64enc bs) = utf8Decode bs := by
  unfold transportDecode
  rw [asciiEncode_ok _ (b64enc_lt128 bs.length bs (le_refl _) hb)]
  dsimp only
  rw [urlsafeB64Decode_b64enc bs hb]

/-- C1: for every valid Cursor `c`, encoding for transport (URL-safe base64
with padding over the UTF-8 bytes of the canonical rendering) and then
decoding from transport yields `c`; in the adapter this is exactly the
`base64=True` path of `cursor_validator`, which base64-decodes then parses
on input and re-renders then base64-encodes on output. -/
theorem c1_cursor_transport_roundtrip (c : Cursor) (h : ValidCursor c) :
    (encodeForTransport c).bind (fun tok => decodeFromTransport tok none) = .ok c ∧
    ∀ tok, encodeForTransport c = .ok tok →
      cursor_validator_validate none true true (.vstr tok) = .ok (.ocur c) := by
  obtain ⟨bs, hUenc, hblt, hUdec⟩ := utf8_encode_decode c.render (render_scalar c h)
  have henc : encodeForTransport c = .ok (b64enc bs) := by
    unfold encodeForTransport transportEncode
    rw [hUenc]
  have hdect : transportDecode (b64enc bs) = .ok c.render := by
    rw [transportDecode_b64enc bs hblt, hUdec]
  have hdec : decodeFromTransport (b64enc bs) none = .ok c := by
    unfold decodeFromTransport
    rw [hdect]
    exact cursor_parse_render c h
  constructor
  · rw [henc]
    simpa [Except.bind] using hdec
  · intro tok htok
    rw [henc] at htok
    obtain rfl := (Except.ok.inj htok).symm
    have hfront : cursorFront none true (.vstr (b64enc bs)) = .ok c := by
      unfold cursorFront
      dsimp only
      rw [if_pos rfl, hdect]
      exact cursor_parse_render c h
    unfold cursor_validator_validate
    rw [hfront]
    rfl

/-- Witness for C1 at the cursor `a:1`, transport token `"YTox"`. -/
theorem c1_witness :
    (encodeForTransport ⟨[(pstr "a", pstr "1")]⟩).bind
        (fun tok => decodeFromTransport tok none)
      = .ok ⟨[(pstr "a", pstr "1")]⟩ ∧
    cursor_validator_validate none true true (.vstr (pstr "YTox"))
      = .ok (.ocur ⟨[(pstr "a", pstr "1")]⟩) :=
  ⟨(c1_cursor_transport_roundtrip ⟨[(pstr "a", pstr "1")]⟩ (by decide)).1,
   (c1_cursor_transport_roundtrip ⟨[(pstr "a", pstr "1")]⟩ (by decide)).2
     (pstr "YTox") (by decide)⟩

end Rssant

namespace Rssant

/-! ### C5: output selected solely by the `output_object` flag -/

/-- C5: for every accepted input, the returned value is selected solely by
the `output_object` flag fixed at construction: with `output_object=True`
the validate function returns the structured domain value (the `Cursor`
object, or the named tuple of components), and with `output_object=False`
the re-serialized canonical string (base64-wrapped for a cursor validator
constructed with `base64=True`). -/
theorem c5_output_object_selection :
    (∀ (keys : Option (List PyStr)) (b64 : Bool) (v : CVal) (c : Cursor),
        cursorFront keys b64 v = .ok c →
        cursor_validator_validate keys true b64 v = .ok (.ocur c) ∧
        (b64 = false →
          cursor_validator_validate keys false false v = .ok (.ostr c.render)) ∧
        (b64 = true → ∀ w, transportEncode c.render = .ok w →
          cursor_validator_validate keys false true v = .ok (.ostr w))) ∧
    (∀ (arity : Nat) (v : UVal) (t : List Int),
        unionidFront v = .ok t →
        (t.length = arity → unionid_validator_validate arity true v = .ok (.otup t)) ∧
        (∀ w, unionidEncode t = .ok w →
          unionid_validator_validate arity false v = .ok (.ostr w))) := by
  constructor
  · intro keys b64 v c hfront
    refine ⟨?_, ?_, ?_⟩
    · unfold cursor_validator_validate
      rw [hfront]
      rfl
    · intro hb
      subst hb
      unfold cursor_validator_validate
      rw [hfront]
      rfl
    · intro hb w hw
      subst hb
      unfold cursor_validator_validate
      rw [hfront]
      dsimp only
      rw [if_neg (by simp), if_pos rfl, hw]
  · intro arity v t hfront
    constructor
    · intro hlen
      unfold unionid_validator_validate
      rw [hfront]
      dsimp only
      unfold unionidFinish
      rw [if_pos rfl, if_pos hlen]
    · intro w hw
      unfold unionid_validator_validate
      rw [hfront]
      dsimp only
      unfold unionidFinish
      rw [if_neg (by simp), hw]

/-- Witness for C5 at the cursor input `"a:1"` and the unionid token
`"1-2"`. -/
theorem c5_witness :
    cursor_validator_validate none true false (.vstr (pstr "a:1"))
      = .ok (.ocur ⟨[(pstr "a", pstr "1")]⟩) ∧
    cursor_validator_validate none false false (.vstr (pstr "a:1"))
      = .ok (.ostr (Cursor.render ⟨[(pstr "a", pstr "1")]⟩)) ∧
    cursor_validator_validate none false true (.vstr (pstr "YTox"))
      = .ok (.ostr (pstr "YTox")) ∧
    unionid_validator_validate 2 true (.ustr [49, 45, 50]) = .ok (.otup [1, 2]) ∧
    unionid_validator_validate 2 false (.ustr [49, 45, 50])
      = .ok (.ostr [49, 45, 50]) :=
  ⟨(c5_output_object_selection.1 none false (.vstr (pstr "a:1"))
      ⟨[(pstr "a", pstr "1")]⟩ (by decide)).1,
   (c5_output_object_selection.1 none false (.vstr (pstr "a:1"))
      ⟨[(pstr "a", pstr "1")]⟩ (by decide)).2.1 rfl,
   (c5_output_object_selection.1 none true (.vstr (pstr "YTox"))
      ⟨[(pstr "a", pstr "1")]⟩ (by decide)).2.2 rfl (pstr "YTox") (by decide),
   (c5_output_object_selection.2 2 (.ustr [49, 45, 50]) [1, 2] (by decide)).1 rfl,
   (c5_output_object_selection.2 2 (.ustr [49, 45, 50]) [1, 2] (by decide)).2
     [49, 45, 50] (by decide)⟩

/-! ### C6: missing-key detection lists all missing keys -/

/-- C6: if parsing yields a Cursor whose key set omits required keys, the
parse fails with `MissingKeyError` listing ALL missing keys (membership in
the reported list is exactly "required and absent"); `parse("a:1",
{a,b})` fails naming `"b"`; and the same check runs when an
already-constructed Cursor is passed to the cursor validator. -/
theorem c6_missing_key_detection :
    (∀ (s : PyStr) (R : List PyStr) (c : Cursor) (ms : List PyStr),
        cursorFromString s none = .ok c →
        ms = R.filter (fun k => decide (k ∉ c.keys)) → ms ≠ [] →
        cursorFromString s (some R) = .error (.missingKeyError ms) ∧
        ∀ k, k ∈ ms ↔ (k ∈ R ∧ k ∉ c.keys)) ∧
    cursorFromString (pstr "a:1") (some [pstr "a", pstr "b"])
      = .error (.missingKeyError [pstr "b"]) ∧
    (∀ (R : List PyStr) (c : Cursor) (oo b64 : Bool) (ms : List PyStr),
        ms = R.filter (fun k => decide (k ∉ c.keys)) → ms ≠ [] →
        cursor_validator_validate (some R) oo b64 (.vcur c)
          = .error (.invalid (.missingKeyError ms))) := by
  refine ⟨?_, by decide, ?_⟩
  · intro s R c ms h hms hne
    constructor
    · revert h
      unfold cursorFromString
      cases hE : (if s.isEmpty then Except.ok [] else parsePairs (splitChar 44 s) []) with
      | error e => intro h; exact absurd h (by simp)
      | ok es =>
          intro h
          simp only [checkMissingKeys] at h
          obtain rfl := Except.ok.inj h
          unfold checkMissingKeys
          dsimp only
          subst hms
          cases hflt : List.filter (fun k => decide (k ∉ Cursor.keys ⟨es⟩)) R with
          | nil => exact absurd hflt hne
          | cons m mt => rfl
    · intro k
      subst hms
      simp [List.mem_filter]
  · intro R c oo b64 ms hms hne
    unfold cursor_validator_validate cursorFront
    dsimp only
    unfold checkMissingKeys
    dsimp only
    subst hms
    cases hflt : List.filter (fun k => decide (k ∉ Cursor.keys c)) R with
    | nil => exact absurd hflt hne
    | cons m mt => rfl

/-- Witness for C6: the cursor `a:1` against required keys `{a, b}`. -/
theorem c6_witness :
    cursorFromString (pstr "a:1") (some [pstr "a", pstr "b"])
      = .error (.missingKeyError [pstr "b"]) ∧
    cursor_validator_validate (some [pstr "a", pstr "b"]) false false
        (.vcur ⟨[(pstr "a", pstr "1")]⟩)
      = .error (.invalid (.missingKeyError [pstr "b"])) :=
  ⟨c6_missing_key_detection.2.1,
   c6_missing_key_detection.2.2 [pstr "a", pstr "b"] ⟨[(pstr "a", pstr "1")]⟩
     false false [pstr "b"] (by decide) (by decide)⟩

end Rssant

namespace Rssant

/-! ### C7: transport decode failures and the non-validating decoder -/

lemma asciiEncode_error : ∀ (s : PyStr) (e : PyExn),
    asciiEncode s = .error e → e = .unicodeEncodeError := by
  intro s
  induction s with
  | nil => intro e h; exact absurd h (by simp [asciiEncode])
  | cons c cs ih =>
      intro e h
      simp only [asciiEncode] at h
      split_ifs at h with hc
      · cases hrec : asciiEncode cs with
        | error e2 =>
            rw [hrec] at h
            simp only [Except.map] at h
            obtain rfl := Except.error.inj h
            exact ih e2 hrec
        | ok bs =>
            rw [hrec] at h
            simp only [Except.map] at h
            exact Except.noConfusion h
      · exact (Except.error.inj h).symm

lemma a2bBase64_error : ∀ (l : List Nat) (qp lc lb : Nat) (e : PyExn),
    a2bBase64 l qp lc lb = .error e → e = .binasciiError := by
  intro l
  induction l with
  | nil =>
      intro qp lc lb e h
      simp only [a2bBase64] at h
      split_ifs at h <;>
        first
          | exact Except.noConfusion h
          | exact (Except.error.inj h).symm
  | cons b rest ih =>
      intro qp lc lb e h
      simp only [a2bBase64] at h
      by_cases h1 : b > 127 ∨ b = 13 ∨ b = 10 ∨ b = 32
      · rw [if_pos h1] at h
        exact ih qp lc lb e h
      · rw [if_neg h1] at h
        by_cases h2 : b = 61
        · rw [if_pos h2] at h
          by_cases h3 : qp < 2 ∨ (qp = 2 ∧ b64FindValid rest ≠ some 61)
          · rw [if_pos h3] at h
            exact ih qp lc lb e h
          · rw [if_neg h3] at h
            exact Except.noConfusion h
        · rw [if_neg h2] at h
          cases hsv : b64StdVal b with
          | none =>
              rw [hsv] at h
              exact ih qp lc lb e h
          | some v =>
              rw [hsv] at h
              dsimp only at h
              by_cases h4 : lb + 6 ≥ 8
              · rw [if_pos h4] at h
                cases hrec : a2bBase64 rest ((qp + 1) % 4)
                    ((lc * 64 + v) % 2 ^ (lb + 6 - 8)) (lb + 6 - 8) with
                | error e2 =>
                    rw [hrec] at h
                    simp only [Except.map] at h
                    obtain rfl := Except.error.inj h
                    exact ih _ _ _ e2 hrec
                | ok bs =>
                    rw [hrec] at h
                    simp only [Except.map] at h
                    exact Except.noConfusion h
              · rw [if_neg h4] at h
                exact ih _ _ _ e h

lemma utf8Tail2_error (k : List Nat → Except PyExn PyStr)
    (hk : ∀ l e, k l = .error e → e = .unicodeDecodeError) :
    ∀ (b : Nat) (rest : List Nat) (e : PyExn),
      utf8Tail2 k b rest = .error e → e = .unicodeDecodeError := by
  intro b rest e h
  cases rest with
  | nil => exact (Except.error.inj h).symm
  | cons b2 r2 =>
      simp only [utf8Tail2] at h
      split_ifs at h with hc
      · cases hrec : k r2 with
        | error e2 =>
            rw [hrec] at h
            simp only [Except.map] at h
            obtain rfl := Except.error.inj h
            exact hk r2 e2 hrec
        | ok s =>
            rw [hrec] at h
            simp only [Except.map] at h
            exact Except.noConfusion h
      · exact (Except.error.inj h).symm

lemma utf8Tail3_error (k : List Nat → Except PyExn PyStr)
    (hk : ∀ l e, k l = .error e → e = .unicodeDecodeError) :
    ∀ (b : Nat) (rest : List Nat) (e : PyExn),
      utf8Tail3 k b rest = .error e → e = .unicodeDecodeError := by
  intro b rest e h
  match rest with
  | [] => exact (Except.error.inj h).symm
  | [b2] => exact (Except.error.inj h).symm
  | b2 :: b3 :: r3 =>
      simp only [utf8Tail3] at h
      split_ifs at h with hc
      · cases hrec : k r3 with
        | error e2 =>
            rw [hrec] at h
            simp only [Except.map] at h
            obtain rfl := Except.error.inj h
            exact hk r3 e2 hrec
        | ok s =>
            rw [hrec] at h
            simp only [Except.map] at h
            exact Except.noConfusion h
      · exact (Except.error.inj h).symm

lemma utf8Tail4_error (k : List Nat → Except PyExn PyStr)
    (hk : ∀ l e, k l = .error e → e = .unicodeDecodeError) :
    ∀ (b : Nat) (rest : List Nat) (e : PyExn),
      utf8Tail4 k b rest = .error e → e = .unicodeDecodeError := by
  intro b rest e h
  match rest with
  | [] => exact (Except.error.inj h).symm
  | [b2] => exact (Except.error.inj h).symm
  | [b2, b3] => exact (Except.error.inj h).symm
  | b2 :: b3 :: b4 :: r4 =>
      simp only [utf8Tail4] at h
      split_ifs at h with hc
      · cases hrec : k r4 with
        | error e2 =>
            rw [hrec] at h
            simp only [Except.map] at h
            obtain rfl := Except.error.inj h
            exact hk r4 e2 hrec
        | ok s =>
            rw [hrec] at h
            simp only [Except.map] at h
            exact Except.noConfusion h
      · exact (Except.error.inj h).symm

lemma utf8DecodeAux_error : ∀ (fuel : Nat) (bs : List Nat) (e : PyExn),
    utf8DecodeAux fuel bs = .error e → e = .unicodeDecodeError := by
  intro fuel
  induction fuel with
  | zero =>
      intro bs e h
      cases bs with
      | nil => exact absurd h (by simp [utf8DecodeAux])
      | cons b rest =>
          simp only [utf8DecodeAux] at h
          exact (Except.error.inj h).symm
  | succ fuel ih =>
      intro bs e h
      cases bs with
      | nil => exact absurd h (by simp [utf8DecodeAux])
      | cons b rest =>
          simp only [utf8DecodeAux] at h
          split_ifs at h with h1 h2 h3 h4 h5
          · cases hrec : utf8DecodeAux fuel rest with
            | error e2 =>
                rw [hrec] at h
                simp only [Except.map] at h
                obtain rfl := Except.error.inj h
                exact ih rest e2 hrec
            | ok s =>
                rw [hrec] at h
                simp only [Except.map] at h
                exact Except.noConfusion h
          · exact (Except.error.inj h).symm
          · exact utf8Tail2_error _ (fun l e2 he => ih l e2 he) b rest e h
          · exact utf8Tail3_error _ (fun l e2 he => ih l e2 he) b rest e h
          · exact utf8Tail4_error _ (fun l e2 he => ih l e2 he) b rest e h
          · exact (Except.error.inj h).symm

lemma transportDecode_error_caught (s : PyStr) (e : PyExn)
    (h : transportDecode s = .error e) : cursorCaught e = true := by
  unfold transportDecode at h
  cases ha : asciiEncode s with
  | error e1 =>
      rw [ha] at h
      obtain rfl := Except.error.inj h
      rw [asciiEncode_error s e1 ha]
      rfl
  | ok bs =>
      rw [ha] at h
      dsimp only at h
      cases hb : urlsafeB64Decode bs with
      | error e2 =>
          rw [hb] at h
          obtain rfl := Except.error.inj h
          rw [a2bBase64_error _ _ _ _ e2 hb]
          rfl
      | ok raw =>
          rw [hb] at h
          dsimp only at h
          rw [utf8DecodeAux_error raw.length raw e h]
          rfl

lemma a2bBase64_all_foreign : ∀ (s : List Nat) (qp lc lb : Nat),
    (∀ ch ∈ s, ch ≠ 61 ∧ b64StdVal ch = none) →
    a2bBase64 s qp lc lb = if lb = 0 then .ok [] else .error .binasciiError := by
  intro s
  induction s with
  | nil => intro qp lc lb _; simp [a2bBase64]
  | cons b rest ih =>
      intro qp lc lb hch
      simp only [a2bBase64]
      by_cases h1 : b > 127 ∨ b = 13 ∨ b = 10 ∨ b = 32
      · rw [if_pos h1]
        exact ih qp lc lb (fun ch hm => hch ch (by simp [hm]))
      · rw [if_neg h1, if_neg (hch b (by simp)).1, (hch b (by simp)).2]
        exact ih qp lc lb (fun ch hm => hch ch (by simp [hm]))

/-- C7 counterexample: the input `"!"` consists solely of characters
outside the base64 alphabet, yet decoding from transport does NOT fail —
CPython's non-validating `b64decode` discards such characters, the empty
byte string decodes to the empty text, and the empty text grammar-parses to
the empty Cursor, so the validator succeeds. -/
theorem c7_counterexample :
    b64StdVal (b64UrlTranslate 33) = none ∧ pstr "!" = [33] ∧
    cursor_validator_validate none false true (.vstr (pstr "!"))
      = .ok (.ostr []) := by decide

/-- C7 amended: a transport decode failure (non-ASCII input, incorrect
padding among the remaining valid characters, or invalid UTF-8) is reported
as the validator's failure independently of and prior to any grammar
validation, for every `keys`/`output_object` configuration; but characters
outside the base64 alphabet are DISCARDED by the non-validating decoder
rather than rejected — an input made solely of foreign characters decodes
to the empty string. -/
theorem c7_decode_failure_precedes_grammar :
    (∀ (oo : Bool) (keys : Option (List PyStr)) (s : PyStr) (e : PyExn),
        transportDecode s = .error e →
        cursor_validator_validate keys oo true (.vstr s) = .error (.invalid e)) ∧
    (∀ s : PyStr,
        (∀ ch ∈ s, ch < 128 ∧ b64UrlTranslate ch ≠ 61 ∧
          b64StdVal (b64UrlTranslate ch) = none) →
        transportDecode s = .ok []) := by
  constructor
  · intro oo keys s e h
    unfold cursor_validator_validate cursorFront
    dsimp only
    rw [if_pos rfl, h]
    dsimp only
    rw [if_pos (transportDecode_error_caught s e h)]
  · intro s hs
    unfold transportDecode
    rw [asciiEncode_ok s (fun ch hm => (hs ch hm).1)]
    dsimp only
    unfold urlsafeB64Decode
    rw [a2bBase64_all_foreign (s.map b64UrlTranslate) 0 0 0 ?_]
    · rfl
    · intro ch hm
      obtain ⟨c0, hc0, rfl⟩ := List.mem_map.mp hm
      exact ⟨(hs c0 hc0).2.1, (hs c0 hc0).2.2⟩

/-- Witness for the amended C7: `"YQ="` fails with the padding error before
any grammar check; `"!"` decodes to the empty string. -/
theorem c7_witness :
    cursor_validator_validate none false true (.vstr (pstr "YQ="))
      = .error (.invalid .binasciiError) ∧
    transportDecode (pstr "!") = .ok [] :=
  ⟨c7_decode_failure_precedes_grammar.1 false none (pstr "YQ=") .binasciiError
     (by decide),
   c7_decode_failure_precedes_grammar.2 (pstr "!") (by decide)⟩

end Rssant

namespace Rssant

/-! ### C3: what escapes the adapter boundary -/

lemma utf8Tail2_scalar (k : List Nat → Except PyExn PyStr)
    (hk : ∀ l s, k l = .ok s → ∀ c ∈ s, ScalarCp c)
    (b : Nat) (hb1 : 0xC2 ≤ b) (hb2 : b < 0xE0) :
    ∀ (rest : List Nat) (s : PyStr), utf8Tail2 k b rest = .ok s →
      ∀ c ∈ s, ScalarCp c := by
  intro rest s h
  cases rest with
  | nil => exact absurd h (by simp [utf8Tail2])
  | cons b2 r2 =>
      simp only [utf8Tail2] at h
      split_ifs at h with hc
      · cases hrec : k r2 with
        | error e =>
            rw [hrec] at h
            simp only [Except.map] at h
            exact Except.noConfusion h
        | ok s0 =>
            rw [hrec] at h
            simp only [Except.map] at h
            obtain rfl := Except.ok.inj h
            intro c hm
            rcases List.mem_cons.mp hm with rfl | hm
            · simp only [utf8Cont, Bool.and_eq_true, decide_eq_true_eq] at hc
              left
              omega
            · exact hk r2 s0 hrec c hm

lemma utf8Tail3_scalar (k : List Nat → Except PyExn PyStr)
    (hk : ∀ l s, k l = .ok s → ∀ c ∈ s, ScalarCp c)
    (b : Nat) (hb2 : b < 0xF0) :
    ∀ (rest : List Nat) (s : PyStr), utf8Tail3 k b rest = .ok s →
      ∀ c ∈ s, ScalarCp c := by
  intro rest s h
  match rest with
  | [] => exact absurd h (by simp [utf8Tail3])
  | [b2] => exact absurd h (by simp [utf8Tail3])
  | b2 :: b3 :: r3 =>
      simp only [utf8Tail3] at h
      split_ifs at h with hc
      · cases hrec : k r3 with
        | error e =>
            rw [hrec] at h
            simp only [Except.map] at h
            exact Except.noConfusion h
        | ok s0 =>
            rw [hrec] at h
            simp only [Except.map] at h
            obtain rfl := Except.ok.inj h
            intro c hm
            rcases List.mem_cons.mp hm with rfl | hm
            · simp only [utf8Cont, Bool.and_eq_true, Bool.not_eq_true',
                Bool.and_eq_false_iff, decide_eq_true_eq, decide_eq_false_iff_not,
                not_le, not_lt] at hc
              unfold ScalarCp
              obtain ⟨⟨⟨⟨hb2le, hb2lt⟩, hb3le, hb3lt⟩, hge⟩, hsur⟩ := hc
              rcases hsur with hs1 | hs2
              · left
                omega
              · right
                constructor
                · omega
                · omega
            · exact hk r3 s0 hrec c hm

lemma utf8Tail4_scalar (k : List Nat → Except PyExn PyStr)
    (hk : ∀ l s, k l = .ok s → ∀ c ∈ s, ScalarCp c) (b : Nat) :
    ∀ (rest : List Nat) (s : PyStr), utf8Tail4 k b rest = .ok s →
      ∀ c ∈ s, ScalarCp c := by
  intro rest s h
  match rest with
  | [] => exact absurd h (by simp [utf8Tail4])
  | [b2] => exact absurd h (by simp [utf8Tail4])
  | [b2, b3] => exact absurd h (by simp [utf8Tail4])
  | b2 :: b3 :: b4 :: r4 =>
      simp only [utf8Tail4] at h
      split_ifs at h with hc
      · cases hrec : k r4 with
        | error e =>
            rw [hrec] at h
            simp only [Except.map] at h
            exact Except.noConfusion h
        | ok s0 =>
            rw [hrec] at h
            simp only [Except.map] at h
            obtain rfl := Except.ok.inj h
            intro c hm
            rcases List.mem_cons.mp hm with rfl | hm
            · simp only [utf8Cont, Bool.and_eq_true, decide_eq_true_eq] at hc
              right
              omega
            · exact hk r4 s0 hrec c hm

lemma utf8DecodeAux_scalar : ∀ (fuel : Nat) (bs : List Nat) (s : PyStr),
    utf8DecodeAux fuel bs = .ok s → ∀ c ∈ s, ScalarCp c := by
  intro fuel
  induction fuel with
  | zero =>
      intro bs s h
      cases bs with
      | nil =>
          obtain rfl := Except.ok.inj h
          intro c hm
          exact absurd hm (List.not_mem_nil c)
      | cons b rest =>
          exact absurd h (by simp [utf8DecodeAux])
  | succ fuel ih =>
      intro bs s h
      cases bs with
      | nil =>
          obtain rfl := Except.ok.inj h
          intro c hm
          exact absurd hm (List.not_mem_nil c)
      | cons b rest =>
          simp only [utf8DecodeAux] at h
          split_ifs at h with h1 h2 h3 h4 h5
          · cases hrec : utf8DecodeAux fuel rest with
            | error e =>
            rw [hrec] at h
            simp only [Except.map] at h
            exact Except.noConfusion h
            | ok s0 =>
                rw [hrec] at h
                simp only [Except.map] at h
                obtain rfl := Except.ok.inj h
                intro c hm
                rcases List.mem_cons.mp hm with rfl | hm
                · left
                  omega
                · exact ih rest s0 hrec c hm
          · exact utf8Tail2_scalar _ (fun l s2 hl => ih l s2 hl) b (by omega) (by omega)
              rest s h
          · exact utf8Tail3_scalar _ (fun l s2 hl => ih l s2 hl) b (by omega) rest s h
          · exact utf8Tail4_scalar _ (fun l s2 hl => ih l s2 hl) b rest s h

lemma transportDecode_scalar (s txt : PyStr) (h : transportDecode s = .ok txt) :
    ∀ c ∈ txt, ScalarCp c := by
  unfold transportDecode at h
  cases ha : asciiEncode s with
  | error e => rw [ha] at h; exact absurd h (by simp)
  | ok bs =>
      rw [ha] at h
      dsimp only at h
      cases hb : urlsafeB64Decode bs with
      | error e => rw [hb] at h; exact absurd h (by simp)
      | ok raw =>
          rw [hb] at h
          dsimp only at h
          exact utf8DecodeAux_scalar raw.length raw txt h

end Rssant

namespace Rssant

lemma splitChar_subset (sep : Nat) : ∀ (s : PyStr) (p : PyStr),
    p ∈ splitChar sep s → ∀ x ∈ p, x ∈ s := by
  intro s
  induction s with
  | nil =>
      intro p hp x hx
      simp only [splitChar, List.mem_singleton] at hp
      subst hp
      exact absurd hx (List.not_mem_nil x)
  | cons c cs ih =>
      intro p hp x hx
      simp only [splitChar] at hp
      split_ifs at hp with hc
      · rcases List.mem_cons.mp hp with rfl | hp
        · exact absurd hx (List.not_mem_nil x)
        · exact List.mem_cons_of_mem c (ih p hp x hx)
      · cases hr : splitChar sep cs with
        | nil =>
            rw [hr] at hp
            simp only [List.mem_singleton] at hp
            subst hp
            simp only [List.mem_singleton] at hx
            subst hx
            simp
        | cons h0 t0 =>
            rw [hr] at hp
            rcases List.mem_cons.mp hp with rfl | hp
            · rcases List.mem_cons.mp hx with rfl | hx
              · simp
              · exact List.mem_cons_of_mem c (ih h0 (by rw [hr]; simp) x hx)
            · exact List.mem_cons_of_mem c (ih p (by rw [hr]; simp [hp]) x hx)

lemma splitPair_subset : ∀ (p : PyStr) (k v : PyStr), splitPair p = some (k, v) →
    (∀ x ∈ k, x ∈ p) ∧ (∀ x ∈ v, x ∈ p) := by
  intro p
  induction p with
  | nil => intro k v h; exact absurd h (by simp [splitPair])
  | cons c cs ih =>
      intro k v h
      simp only [splitPair] at h
      split_ifs at h with hc
      · obtain ⟨rfl, rfl⟩ := Prod.mk.injEq .. ▸ Option.some.inj h
        constructor
        · intro x hx
          exact absurd hx (List.not_mem_nil x)
        · intro x hx
          exact List.mem_cons_of_mem c hx
      · cases hr : splitPair cs with
        | none => rw [hr] at h; exact absurd h (by simp)
        | some kv0 =>
            rw [hr] at h
            simp only [Option.map_some'] at h
            obtain ⟨k0, v0⟩ := kv0
            obtain ⟨hk, hv⟩ := Prod.mk.injEq .. ▸ Option.some.inj h
            obtain ⟨hsub1, hsub2⟩ := ih k0 v0 hr
            subst hk
            subst hv
            constructor
            · intro x hx
              rcases List.mem_cons.mp hx with rfl | hx
              · simp
              · exact List.mem_cons_of_mem c (hsub1 x hx)
            · intro x hx
              exact List.mem_cons_of_mem c (hsub2 x hx)

lemma parsePairs_subset : ∀ (ps : List PyStr) (acc es : List (PyStr × PyStr)),
    parsePairs ps acc = .ok es → ∀ kv ∈ es,
      kv ∈ acc ∨ ∃ p ∈ ps, (∀ x ∈ kv.1, x ∈ p) ∧ (∀ x ∈ kv.2, x ∈ p) := by
  intro ps
  induction ps with
  | nil =>
      intro acc es h kv hm
      simp only [parsePairs] at h
      obtain rfl := Except.ok.inj h
      exact Or.inl hm
  | cons p pt ih =>
      intro acc es h kv hm
      simp only [parsePairs] at h
      cases hsp : splitPair p with
      | none => rw [hsp] at h; exact absurd h (by simp)
      | some kv0 =>
          rw [hsp] at h
          obtain ⟨k, v⟩ := kv0
          dsimp only at h
          split_ifs at h with hk hdup
          rcases ih (acc ++ [(k, v)]) es h kv hm with hin | ⟨q, hq, hsub⟩
          · rcases List.mem_append.mp hin with hin | hin
            · exact Or.inl hin
            · simp only [List.mem_singleton] at hin
              subst hin
              obtain ⟨h1, h2⟩ := splitPair_subset p k v hsp
              exact Or.inr ⟨p, by simp, h1, h2⟩
          · exact Or.inr ⟨q, by simp [hq], hsub⟩

lemma cursorFromString_chars (s : PyStr) (req : Option (List PyStr)) (c : Cursor)
    (h : cursorFromString s req = .ok c) :
    ∀ kv ∈ c.entries, (∀ x ∈ kv.1, x ∈ s) ∧ (∀ x ∈ kv.2, x ∈ s) := by
  unfold cursorFromString at h
  by_cases hemp : s.isEmpty = true
  · rw [if_pos hemp] at h
    dsimp only at h
    cases hchk : checkMissingKeys req ⟨[]⟩ with
    | error e => rw [hchk] at h; exact absurd h (by simp)
    | ok u =>
        rw [hchk] at h
        obtain rfl := Except.ok.inj h
        intro kv hm
        exact absurd hm (List.not_mem_nil kv)
  · rw [if_neg hemp] at h
    cases hpp : parsePairs (splitChar 44 s) [] with
    | error e => rw [hpp] at h; exact absurd h (by simp)
    | ok es =>
        rw [hpp] at h
        dsimp only at h
        cases hchk : checkMissingKeys req ⟨es⟩ with
        | error e => rw [hchk] at h; exact absurd h (by simp)
        | ok u =>
            rw [hchk] at h
            obtain rfl := Except.ok.inj h
            intro kv hm
            rcases parsePairs_subset (splitChar 44 s) [] es hpp kv hm with hin | ⟨p, hp, h1, h2⟩
            · exact absurd hin (List.not_mem_nil kv)
            · exact ⟨fun x hx => splitChar_subset 44 s p hp x (h1 x hx),
                fun x hx => splitChar_subset 44 s p hp x (h2 x hx)⟩

end Rssant

namespace Rssant

lemma parsePairs_error : ∀ (ps : List PyStr) (acc : List (PyStr × PyStr)) (e : PyExn),
    parsePairs ps acc = .error e → isValueError e = true := by
  intro ps
  induction ps with
  | nil =>
      intro acc e h
      exact absurd h (by simp [parsePairs])
  | cons p pt ih =>
      intro acc e h
      simp only [parsePairs] at h
      cases hsp : splitPair p with
      | none =>
          rw [hsp] at h
          obtain rfl := Except.error.inj h
          rfl
      | some kv0 =>
          rw [hsp] at h
          obtain ⟨k, v⟩ := kv0
          dsimp only at h
          split_ifs at h with hk hdup
          · obtain rfl := Except.error.inj h
            rfl
          · obtain rfl := Except.error.inj h
            rfl
          · exact ih (acc ++ [(k, v)]) e h

lemma checkMissingKeys_error (req : Option (List PyStr)) (c : Cursor) (e : PyExn)
    (h : checkMissingKeys req c = .error e) : isValueError e = true := by
  unfold checkMissingKeys at h
  cases req with
  | none => exact absurd h (by simp)
  | some R =>
      dsimp only at h
      cases hflt : List.filter (fun k => decide (k ∉ c.keys)) R with
      | nil => rw [hflt] at h; exact absurd h (by simp)
      | cons m mt =>
          rw [hflt] at h
          obtain rfl := Except.error.inj h
          rfl

lemma cursorFromString_error (s : PyStr) (req : Option (List PyStr)) (e : PyExn)
    (h : cursorFromString s req = .error e) : isValueError e = true := by
  unfold cursorFromString at h
  by_cases hemp : s.isEmpty = true
  · rw [if_pos hemp] at h
    dsimp only at h
    cases hchk : checkMissingKeys req ⟨[]⟩ with
    | error e2 =>
        rw [hchk] at h
        obtain rfl := Except.error.inj h
        exact checkMissingKeys_error req ⟨[]⟩ e2 hchk
    | ok u => rw [hchk] at h; exact absurd h (by simp)
  · rw [if_neg hemp] at h
    cases hpp : parsePairs (splitChar 44 s) [] with
    | error e2 =>
        rw [hpp] at h
        obtain rfl := Except.error.inj h
        exact parsePairs_error _ [] e2 hpp
    | ok es =>
        rw [hpp] at h
        dsimp only at h
        cases hchk : checkMissingKeys req ⟨es⟩ with
        | error e2 =>
            rw [hchk] at h
            obtain rfl := Except.error.inj h
            exact checkMissingKeys_error req ⟨es⟩ e2 hchk
        | ok u => rw [hchk] at h; exact absurd h (by simp)

lemma isValueError_caught (e : PyExn) (h : isValueError e = true) :
    cursorCaught e = true := by
  cases e <;> first | rfl | exact absurd h (by simp [isValueError])

lemma cursorFront_vstr_caught (keys : Option (List PyStr)) (b64 : Bool) (s : PyStr)
    (e : PyExn) (h : cursorFront keys b64 (.vstr s) = .error e) :
    cursorCaught e = true := by
  unfold cursorFront at h
  dsimp only at h
  cases b64 with
  | false =>
      rw [if_neg (by simp)] at h
      exact isValueError_caught e (cursorFromString_error s keys e h)
  | true =>
      rw [if_pos rfl] at h
      cases htd : transportDecode s with
      | error e2 =>
          rw [htd] at h
          obtain rfl := Except.error.inj h
          exact transportDecode_error_caught s e2 htd
      | ok txt =>
          rw [htd] at h
          exact isValueError_caught e (cursorFromString_error txt keys e h)

lemma transportEncode_ok_of_scalar (c : Cursor)
    (hsc : ∀ kv ∈ c.entries, (∀ ch ∈ kv.1, ScalarCp ch) ∧ (∀ ch ∈ kv.2, ScalarCp ch)) :
    ∃ w, transportEncode c.render = .ok w := by
  have hrs : ∀ ch ∈ c.render, ScalarCp ch := by
    intro ch hch
    unfold Cursor.render at hch
    rcases joinSep_mem [44] _ ch hch with hm | ⟨p, hp, hchp⟩
    · simp only [List.mem_singleton] at hm
      subst hm
      left
      omega
    · obtain ⟨kv, hkv, rfl⟩ := List.mem_map.mp hp
      have hv := hsc kv hkv
      rcases List.mem_append.mp hchp with hm | hm
      · exact hv.1 ch hm
      · rcases List.mem_cons.mp hm with rfl | hm
        · left
          omega
        · exact hv.2 ch hm
  obtain ⟨bs, hbs, -, -⟩ := utf8_roundtrip c.render hrs
  refine ⟨b64enc bs, ?_⟩
  unfold transportEncode
  rw [hbs]

lemma decodeParts_error_token : ∀ (ps : List PyStr) (e : PyExn),
    decodeParts ps = .error e → e = .invalidTokenError := by
  intro ps
  induction ps with
  | nil => intro e h; exact absurd h (by simp [decodeParts])
  | cons p pt ih =>
      intro e h
      simp only [decodeParts] at h
      split_ifs at h with hemp
      · obtain rfl := Except.error.inj h
        rfl
      · cases htr : traverseB62 p with
        | none =>
            rw [htr] at h
            obtain rfl := Except.error.inj h
            rfl
        | some vs =>
            rw [htr] at h
            dsimp only at h
            cases hrec : decodeParts pt with
            | error e2 =>
                rw [hrec] at h
                obtain rfl := Except.error.inj h
                exact ih e2 hrec
            | ok xs => rw [hrec] at h; exact absurd h (by simp)

lemma unionidEncode_error (t : List Int) (e : PyExn)
    (h : unionidEncode t = .error e) : e = .rangeError := by
  unfold unionidEncode at h
  split_ifs at h
  exact (Except.error.inj h).symm

/-- C3 amended (unionid part): the unionid validator never leaks an
uncaught exception, for any input. -/
lemma unionid_never_leaks (arity : Nat) (oo : Bool) (v : UVal) :
    leakedErr (unionid_validator_validate arity oo v) = false := by
  unfold unionid_validator_validate
  cases hfr : unionidFront v with
  | error e =>
      dsimp only
      have hc : unionidCaught e = true := by
        cases v with
        | ustr s =>
            simp only [unionidFront, unionidDecode] at hfr
            rw [decodeParts_error_token _ e hfr]
            rfl
        | utup t => exact absurd hfr (by simp [unionidFront])
        | uother =>
            simp only [unionidFront] at hfr
            obtain rfl := Except.error.inj hfr
            rfl
      rw [if_pos hc]
      rfl
  | ok t =>
      dsimp only
      cases hfin : unionidFinish arity oo t with
      | ok r => rfl
      | error e =>
          have hc : unionidCaught e = true := by
            unfold unionidFinish at hfin
            split_ifs at hfin with hoo hlen
            · obtain rfl := Except.error.inj hfin
              rfl
            · cases henc : unionidEncode t with
              | error e2 =>
                  rw [henc] at hfin
                  obtain rfl := Except.error.inj hfin
                  rw [unionidEncode_error t e2 henc]
                  rfl
              | ok w => rw [henc] at hfin; exact absurd hfin (by simp)
          dsimp only
          rw [if_pos hc]
          rfl

end Rssant

namespace Rssant

/-- C3 counterexample: for an input that is neither a string nor a `Cursor`,
the `base64=True` cursor validator evaluates `value.encode('ascii')`, which
raises `AttributeError` — an internal error type not named by the `except
(UnicodeEncodeError, UnicodeDecodeError, ValueError)` clause — and it
propagates out of the validate function instead of becoming `Invalid`. -/
theorem c3_counterexample :
    cursor_validator_validate none false true .vother
      = .error (.uncaught .attributeError) := by decide

/-- C3 amended: the adapter converts every underlying codec failure into the
uniform `Invalid` failure carrying the original exception — for the cursor
validator on every STRING input (and on `Cursor` inputs whose content is
encodable), and for the unionid validator on every input; but an input of
any other type makes the cursor validator raise an uncaught
`AttributeError`. -/
theorem c3_adapter_boundary :
    (∀ (keys : Option (List PyStr)) (oo b64 : Bool) (s : PyStr),
        leakedErr (cursor_validator_validate keys oo b64 (.vstr s)) = false) ∧
    (∀ (keys : Option (List PyStr)) (oo b64 : Bool) (c : Cursor),
        (∀ kv ∈ c.entries, (∀ ch ∈ kv.1, ScalarCp ch) ∧ (∀ ch ∈ kv.2, ScalarCp ch)) →
        leakedErr (cursor_validator_validate keys oo b64 (.vcur c)) = false) ∧
    (∀ (arity : Nat) (oo : Bool) (v : UVal),
        leakedErr (unionid_validator_validate arity oo v) = false) := by
  refine ⟨?_, ?_, fun arity oo v => unionid_never_leaks arity oo v⟩
  · intro keys oo b64 s
    unfold cursor_validator_validate
    cases hfr : cursorFront keys b64 (.vstr s) with
    | error e =>
        dsimp only
        rw [if_pos (cursorFront_vstr_caught keys b64 s e hfr)]
        rfl
    | ok c =>
        dsimp only
        cases oo with
        | true => rfl
        | false =>
            cases b64 with
            | false => rfl
            | true =>
                have hsc : ∀ kv ∈ c.entries,
                    (∀ ch ∈ kv.1, ScalarCp ch) ∧ (∀ ch ∈ kv.2, ScalarCp ch) := by
                  unfold cursorFront at hfr
                  dsimp only at hfr
                  rw [if_pos rfl] at hfr
                  cases htd : transportDecode s with
                  | error e2 => rw [htd] at hfr; exact absurd hfr (by simp)
                  | ok txt =>
                      rw [htd] at hfr
                      intro kv hm
                      have hsub := cursorFromString_chars txt keys c hfr kv hm
                      have htxt := transportDecode_scalar s txt htd
                      exact ⟨fun ch hch => htxt ch (hsub.1 ch hch),
                        fun ch hch => htxt ch (hsub.2 ch hch)⟩
                obtain ⟨w, hw⟩ := transportEncode_ok_of_scalar c hsc
                simp only [if_neg, Bool.false_eq_true, if_false, if_pos]
                rw [hw]
                rfl
  · intro keys oo b64 c hsc
    unfold cursor_validator_validate
    cases hfr : cursorFront keys b64 (.vcur c) with
    | error e =>
        dsimp only
        have hc : cursorCaught e = true := by
          unfold cursorFront at hfr
          dsimp only at hfr
          cases hchk : checkMissingKeys keys c with
          | error e2 =>
              rw [hchk] at hfr
              obtain rfl := Except.error.inj hfr
              exact isValueError_caught e2 (checkMissingKeys_error keys c e2 hchk)
          | ok u => rw [hchk] at hfr; exact absurd hfr (by simp)
        rw [if_pos hc]
        rfl
    | ok c2 =>
        dsimp only
        have hc2 : c2 = c := by
          unfold cursorFront at hfr
          dsimp only at hfr
          cases hchk : checkMissingKeys keys c with
          | error e2 => rw [hchk] at hfr; exact absurd hfr (by simp)
          | ok u =>
              rw [hchk] at hfr
              dsimp only at hfr
              exact (Except.ok.inj hfr).symm
        subst hc2
        cases oo with
        | true => rfl
        | false =>
            cases b64 with
            | false => rfl
            | true =>
                obtain ⟨w, hw⟩ := transportEncode_ok_of_scalar c2 hsc
                simp only [if_neg, Bool.false_eq_true, if_false, if_pos]
                rw [hw]
                rfl

/-- Witness for the amended C3 at concrete inputs of each kind. -/
theorem c3_witness :
    leakedErr (cursor_validator_validate none false true
      (.vstr [37, 37])) = false ∧
    leakedErr (cursor_validator_validate (some [pstr "z"]) false true
      (.vcur ⟨[(pstr "a", pstr "1")]⟩)) = false ∧
    leakedErr (unionid_validator_validate 2 true (.ustr [64, 64])) = false :=
  ⟨c3_adapter_boundary.1 none false true [37, 37],
   c3_adapter_boundary.2.1 (some [pstr "z"]) false true ⟨[(pstr "a", pstr "1")]⟩
     (by decide),
   c3_adapter_boundary.2.2 2 true (.ustr [64, 64])⟩

end Rssant
